import Mathlib

set_option maxRecDepth 4000

/-!
# Verification of the JCSV format engine

Shallow embedding of the JCSV repository's format engine:
`example_jcsv_parser.py` (metadata grammar parser, manifest reader,
block scanner / table builder, reference resolver) and
`example_jcsv_writer.py` (writer / offset calculator).

Modelling conventions:
* A file's text is a `String`; the parser consumes the list of its lines
  (Python `readlines`, with the trailing newline of each line dropped,
  which is faithful because the source strips newlines from every line
  it inspects).
* Python `str` operations (`strip`, `split`, `startswith`, ...) are
  re-implemented character-level (`pyStrip`, `pySplit`, ...), following
  Python's semantics.
* Python exceptions (`KeyError`, `ValueError`, pandas parse errors, ...)
  are modelled by `Except PyErr`.
* pandas cells are modelled by `Value`; a float cell carries its
  canonical decimal representation (Python `repr`), since
  `float(repr(x)) == x` in Python; IEEE-754 bit-level behaviour is not
  modelled.
-/

namespace JCSV

/-- The whitespace set of Python's `str.strip()` (ASCII part; the
inputs considered here contain no other whitespace). -/
def isPyWs (c : Char) : Bool :=
  c = ' ' || c = '\t' || c = '\n' || c = '\r' || c = '\x0b' || c = '\x0c'

def ofChars (cs : List Char) : String := String.mk cs

/-- Python `s.strip()`. -/
def pyStrip (s : String) : String :=
  ofChars (((s.data.dropWhile isPyWs).reverse.dropWhile isPyWs).reverse)

/-- Python `s.rstrip(chr 10)`. -/
def rstripNl (s : String) : String :=
  ofChars ((s.data.reverse.dropWhile (fun c => c = '\n')).reverse)

/-- Python `s.split(sep)` for a one-character separator (char-list level). -/
def pySplitCh (sep : Char) : List Char → List (List Char)
  | [] => [[]]
  | c :: cs =>
    let r := pySplitCh sep cs
    if c = sep then [] :: r
    else
      match r with
      | [] => [[c]]
      | p :: ps => (c :: p) :: ps

/-- Python `s.split(sep)` for a one-character separator. -/
def pySplit (s : String) (sep : Char) : List String :=
  (pySplitCh sep s.data).map ofChars

/-- Does the string start with the given character? -/
def startsWithCh (s : String) (c : Char) : Bool :=
  match s.data with
  | [] => false
  | c' :: _ => c' = c

/-- Does the string end with the given character? -/
def endsWithCh (s : String) (c : Char) : Bool :=
  match s.data.getLast? with
  | none => false
  | some c' => c' = c

/-- Python `s[1:-1]`. -/
def dropFirstLast (s : String) : String := ofChars (s.data.drop 1 |>.dropLast)

def containsCh (s : String) (c : Char) : Bool := s.data.contains c

/-- The decimal value of a digit list (most significant first). -/
def digitsVal (ds : List Char) : Nat :=
  ds.foldl (fun a c => a * 10 + (c.toNat - '0'.toNat)) 0

/-- Parse an unsigned run of decimal digits. -/
def digitsCore (ds : List Char) : Option Nat :=
  if ds = [] then none
  else if ds.all Char.isDigit then some (digitsVal ds)
  else none

/-- Python `int(s)` (sign and decimal digits; returns `none` where
Python raises `ValueError`; numeric-literal underscores not modelled). -/
def pyInt? (s : String) : Option Int :=
  match (pyStrip s).data with
  | [] => none
  | c :: rest =>
    if c = '-' then (digitsCore rest).map (fun n => -(n : Int))
    else if c = '+' then (digitsCore rest).map (fun n => (n : Int))
    else (digitsCore (c :: rest)).map (fun n => (n : Int))

/-- Decimal rendering of a natural number, least-significant digit
first; structural on a fuel bound (any fuel above the digit count gives
the digits). -/
def natToRevF : Nat → Nat → List Char
  | 0, _ => []
  | fuel + 1, n =>
    if n < 10 then [Char.ofNat ('0'.toNat + n)]
    else Char.ofNat ('0'.toNat + n % 10) :: natToRevF fuel (n / 10)

/-- Decimal digits of a natural number, least-significant first. -/
def natToRev (n : Nat) : List Char := natToRevF (n + 1) n

/-- Python `str(n)` for a natural number. -/
def renderNat (n : Nat) : String := ofChars (natToRev n).reverse

/-- Python `str(n)` for an integer. -/
def renderInt (n : Int) : String :=
  if n < 0 then ofChars ('-' :: (natToRev n.natAbs).reverse) else renderNat n.natAbs

/-! ## Python dicts (insertion-ordered association lists) -/

/-- Python `d.get(k)` / `d[k]` lookup. -/
def dictGet? {α : Type} (d : List (String × α)) (k : String) : Option α :=
  match d with
  | [] => none
  | (k', v) :: rest => if k' = k then some v else dictGet? rest k

/-- Python `k in d`. -/
def dictContains {α : Type} (d : List (String × α)) (k : String) : Bool :=
  (dictGet? d k).isSome

/-- Python `d[k] = v`: overwrite in place if present, else append. -/
def dictInsert {α : Type} (d : List (String × α)) (k : String) (v : α) :
    List (String × α) :=
  match d with
  | [] => [(k, v)]
  | (k', v') :: rest =>
    if k' = k then (k, v) :: rest else (k', v') :: dictInsert rest k v

def dictKeys {α : Type} (d : List (String × α)) : List String := d.map (fun p => p.1)

/-! ## Errors -/

/-- Python exceptions raised by the parser's code paths. -/
inductive PyErr where
  | keyError (key : String)
  | valueError (msg : String)
  | parserError (msg : String)
  | typeError (msg : String)
  | indexError
deriving DecidableEq

/-! ## Metadata grammar parser (`_split_top_commas`, `_parse_metadata`) -/

/-- Loop body of `_split_top_commas`: `parts`/`buf`/`depth` state, with
`buf` kept reversed. Depth is updated before the comma test, exactly as
in the source. -/
def stcGo : List Char → List Char → Int → List String
  | [], buf, _ => [pyStrip (ofChars buf.reverse)]
  | c :: cs, buf, depth =>
    let depth' : Int :=
      if c = '[' then depth + 1 else if c = ']' then depth - 1 else depth
    if c = ',' && depth' = 0 then
      pyStrip (ofChars buf.reverse) :: stcGo cs [] depth'
    else stcGo cs (c :: buf) depth'

/-- `_split_top_commas`: split on commas not enclosed in square
brackets. -/
def split_top_commas (s : String) : List String := stcGo s.data [] 0

/-- The metadata mini-language's value shapes. -/
inductive MetaVal where
  | scalar (s : String)
  | list (items : List String)
  | dmap (m : List (String × String))
deriving DecidableEq

/-- Quote stripping in `_parse_metadata`: drop a matching pair of
surrounding `'` or `"` quotes. -/
def strip_quotes (it : String) : String :=
  if (startsWithCh it '"' && endsWithCh it '"')
      || (startsWithCh it '\'' && endsWithCh it '\'') then
    dropFirstLast it
  else it

/-- List-value parsing in `_parse_metadata`: strip `[`/`]`, split on
top-level commas, strip quotes from each item. -/
def parseListItems (val : String) : List String :=
  let inner := pyStrip (dropFirstLast val)
  (split_top_commas inner).map (fun it => strip_quotes (pyStrip it))

/-- One token of `_parse_metadata`'s main loop: tokens without `=` are
dropped; a bracketed value becomes a list, otherwise a quote-stripped
scalar. -/
def mdToken (md : List (String × MetaVal)) (token : String) :
    List (String × MetaVal) :=
  match splitFirstCh '=' token.data with
  | none => md
  | some (k, v) =>
    let key := pyStrip (ofChars k)
    let val := pyStrip (ofChars v)
    if startsWithCh val '[' && endsWithCh val ']' then
      dictInsert md key (.list (parseListItems val))
    else
      dictInsert md key (.scalar (strip_quotes val))
where
  /-- Python `s.split(c, 1)` provided `c` occurs (else `none`). -/
  splitFirstCh (c : Char) : List Char → Option (List Char × List Char)
    | [] => none
    | x :: xs =>
      if x = c then some ([], xs)
      else
        match splitFirstCh c xs with
        | none => none
        | some (a, b) => some (x :: a, b)

/-- Python iteration over a metadata value (`for item in md[k]`):
iterating a string yields its characters; iterating a dict yields its
keys. -/
def metaIter : MetaVal → List String
  | .scalar s => s.data.map (fun c => ofChars [c])
  | .list l => l
  | .dmap m => m.map (fun p => p.1)

/-- The `dtypes` post-pass of `_parse_metadata`: re-parse the `dtypes`
value into a column-to-type map, splitting each item on its first `:`;
items without `:` are dropped. -/
def dtypesPost (md : List (String × MetaVal)) : List (String × MetaVal) :=
  match dictGet? md "dtypes" with
  | none => md
  | some v =>
    let dt := (metaIter v).foldl (fun dt item =>
      match mdToken.splitFirstCh ':' item.data with
      | none => dt
      | some (c, t) => dictInsert dt (pyStrip (ofChars c)) (pyStrip (ofChars t))) []
    dictInsert md "dtypes" (.dmap dt)

/-- `_parse_metadata`: parse the text between the braces of a block
header into a metadata dict. -/
def parse_metadata (s : String) : List (String × MetaVal) :=
  dtypesPost ((split_top_commas s).foldl mdToken [])

/-! ## Data model: pandas cells, dtypes, DataFrames -/

/-- A pandas cell value. A `float` carries its canonical decimal
representation (Python `repr` of the float). After reference
resolution a cell may hold a shared handle to another table of the same
document; the handle is modelled by the referenced table's name in the
document's table map (`ref`). -/
inductive Value where
  | str (s : String)
  | int (n : Int)
  | float (r : String)
  | bool (b : Bool)
  | null
  | ref (table : String)
deriving DecidableEq

/-- The pandas dtypes occurring in the programs. `int64Nullable` is
pandas `Int64` (nullable integer). -/
inductive Dtype where
  | int64
  | float64
  | boolDt
  | object
  | int64Nullable
deriving DecidableEq

/-- Python `str(dtype)`. -/
def dtypeStr : Dtype → String
  | .int64 => "int64"
  | .float64 => "float64"
  | .boolDt => "bool"
  | .object => "object"
  | .int64Nullable => "Int64"

/-- A pandas DataFrame: ordered named columns with dtypes and rows
(each row lists the cells in column order). -/
structure DataFrame where
  cols : List String
  dtypes : List Dtype
  rows : List (List Value)
deriving DecidableEq

def getCol (df : DataFrame) (j : Nat) : List Value :=
  df.rows.map (fun r => r.getD j .null)

def setColRows (rows : List (List Value)) (j : Nat) (vs : List Value) :
    List (List Value) :=
  List.zipWith (fun r v => r.set j v) rows vs

/-! ## CSV reading (model of `pandas.read_csv` on a `StringIO`) -/

/-- Modelled from pandas: split one CSV line into fields, with
double-quote enclosure and doubled-quote escaping; a quote is special
only at field start, and a character other than a separator after a
closing quote is a parse error. State: input, reversed field
accumulator, inside-quotes flag. -/
def csvGo : List Char → List Char → Bool → Except PyErr (List String)
  | [], acc, false => .ok [ofChars acc.reverse]
  | [], _, true => .error (.parserError "EOF inside string")
  | '"' :: '"' :: cs, acc, true => csvGo cs ('"' :: acc) true
  | ['"'], acc, true => .ok [ofChars acc.reverse]
  | '"' :: ',' :: cs, acc, true =>
    match csvGo cs [] false with
    | .ok fs => .ok (ofChars acc.reverse :: fs)
    | .error e => .error e
  | '"' :: _ :: _, _, true => .error (.parserError "invalid char after closing quote")
  | c :: cs, acc, true => csvGo cs (c :: acc) true
  | c :: cs, acc, false =>
    if c = ',' then
      match csvGo cs [] false with
      | .ok fs => .ok (ofChars acc.reverse :: fs)
      | .error e => .error e
    else if c = '"' && acc.isEmpty then csvGo cs acc true
    else csvGo cs (c :: acc) false

/-- Split one CSV line into its fields. -/
def csvSplitLine (line : String) : Except PyErr (List String) :=
  csvGo line.data [] false

/-- Modelled from pandas: the default strings recognized as missing
values (`NaN`) by `read_csv`. -/
def isNaToken (t : String) : Bool :=
  ["", "#N/A", "#N/A N/A", "#NA", "-1.#IND", "-1.#QNAN", "-NaN", "-nan",
   "1.#IND", "1.#QNAN", "<NA>", "N/A", "NA", "NULL", "NaN", "None",
   "n/a", "nan", "null"].contains t

/-- Does the token have the shape of a decimal integer literal?
Modelled from pandas: the numeric conversion skips surrounding
whitespace, so the token is stripped first. -/
def intTok (t : String) : Bool :=
  let core : List Char → Bool := fun ds => ds ≠ [] && ds.all Char.isDigit
  match (pyStrip t).data with
  | '-' :: ds => core ds
  | '+' :: ds => core ds
  | ds => core ds

/-- Modelled from pandas: does the token have the shape of a floating
point literal (decimal with optional fraction/exponent, or an infinity
form)? Integer-shaped tokens also qualify, and as in pandas'
conversion surrounding whitespace is skipped. -/
def floatTok (t : String) : Bool :=
  let ds := match (pyStrip t).data with
    | '-' :: tl => tl
    | '+' :: tl => tl
    | ds => ds
  let lower := ds.map Char.toLower
  if lower = "inf".data || lower = "infinity".data then true
  else
    let ip := ds.takeWhile Char.isDigit
    let r1 := ds.dropWhile Char.isDigit
    let fp := match r1 with
      | '.' :: tl => tl.takeWhile Char.isDigit
      | _ => []
    let r2 := match r1 with
      | '.' :: tl => tl.dropWhile Char.isDigit
      | _ => r1
    if ip = [] && fp = [] then false
    else
      match r2 with
      | [] => true
      | e :: tl =>
        if e = 'e' || e = 'E' then
          let tl2 := match tl with
            | '-' :: t2 => t2
            | '+' :: t2 => t2
            | _ => tl
          tl2 ≠ [] && tl2.all Char.isDigit
        else false

/-- Modelled from pandas: the strings the C parser recognizes as
booleans. -/
def boolTok (t : String) : Bool := ["True", "TRUE", "False", "FALSE"].contains t

def trueTok (t : String) : Bool := ["True", "TRUE"].contains t

/-- The integer denoted by an integer-shaped token. -/
def intOfTok (t : String) : Int := (pyInt? t).getD 0

/-- Canonical float representation of an integer (Python
`repr(float(n))` for doubles that are integers). -/
def floatReprOfInt (n : Int) : String := renderInt n ++ ".0"

/-- Modelled from pandas: per-column dtype inference of `read_csv`.
A column of integer tokens is `int64`; numeric tokens possibly with
missing values give `float64` (an all-missing column too); boolean
tokens give `bool`; anything else is `object`. -/
def inferDtype (toks : List String) : Dtype :=
  if toks = [] then .object
  else
    let nonNa := toks.filter (fun t => !(isNaToken t))
    let hasNa := toks.any isNaToken
    if nonNa = [] then .float64
    else if !hasNa && nonNa.all intTok then .int64
    else if nonNa.all (fun t => intTok t || floatTok t) then .float64
    else if !hasNa && nonNa.all boolTok then .boolDt
    else .object

/-- Modelled from pandas: the cell value a token takes in a column of
the given inferred dtype (missing-value tokens become `null`, which
stands for `NaN`). -/
def cellValue (dt : Dtype) (t : String) : Value :=
  match dt with
  | .int64 => .int (intOfTok t)
  | .float64 =>
    if isNaToken t then .null
    else if intTok t then .float (floatReprOfInt (intOfTok t))
    else .float t
  | .boolDt => .bool (trueTok t)
  | .object => if isNaToken t then .null else .str t
  | .int64Nullable => .null

/-- Effectful map over a list in `Except` (the semantics of
`List.mapM`, written recursively for direct reasoning). -/
def mapME {α β : Type} (f : α → Except PyErr β) : List α → Except PyErr (List β)
  | [] => .ok []
  | a :: as => do
    let b ← f a
    let bs ← mapME f as
    .ok (b :: bs)

/-- Modelled from pandas: empty header fields are renamed
`Unnamed: k`. -/
def unnamedFix (i : Nat) : List String → List String
  | [] => []
  | c :: cs => (if c = "" then "Unnamed: " ++ renderNat i else c) :: unnamedFix (i + 1) cs

/-- Modelled from pandas: `pd.read_csv(StringIO(csv_text))` where
`csv_text` is the column-header line followed by the data lines. The
expected per-row field count is fixed by the first data row: a first
row longer than the header makes its extra leading fields an implicit
row index (the row labels themselves are not modelled); a later row
with more fields than expected is a parse error; shorter rows are
padded with missing values. Dtype inference and missing-value handling
are per column. (Mangling of duplicate column names is not modelled;
the inputs considered here have distinct column names.) -/
def read_csv (colLine : String) (dataLines : List String) :
    Except PyErr DataFrame := do
  let cols0 ← csvSplitLine colLine
  let cols := unnamedFix 0 cols0
  let rowsT ← mapME csvSplitLine dataLines
  let firstLen := (rowsT.head?.map List.length).getD cols.length
  let expected := max cols.length firstLen
  if rowsT.any (fun r => expected < r.length) then
    .error (.parserError "Error tokenizing data")
  else
    let nidx := firstLen - cols.length
    let rowsD := rowsT.map (fun r => r.drop nidx)
    let rowsP := rowsD.map (fun r => r ++ List.replicate (cols.length - r.length) "")
    let colToks := (List.range cols.length).map (fun j => rowsP.map (fun r => r.getD j ""))
    let dts := colToks.map inferDtype
    let rows := rowsP.map (fun r => List.zipWith cellValue dts r)
    .ok ⟨cols, dts, rows⟩

/-! ## Dtype casting (`df.astype`) -/

/-- Parse a finite decimal/scientific float representation into
(signed mantissa, base-10 exponent); `none` for infinity forms. -/
def decParse (r : String) : Option (Int × Int) :=
  let (sgn, ds) : Int × List Char := match r.data with
    | '-' :: tl => (-1, tl)
    | '+' :: tl => (1, tl)
    | ds => (1, ds)
  let ip := ds.takeWhile Char.isDigit
  let r1 := ds.dropWhile Char.isDigit
  let fp := match r1 with
    | '.' :: tl => tl.takeWhile Char.isDigit
    | _ => []
  let r2 := match r1 with
    | '.' :: tl => tl.dropWhile Char.isDigit
    | _ => r1
  if ip = [] && fp = [] then none
  else
    let mant : Nat := digitsVal (ip ++ fp)
    match r2 with
    | [] => some (sgn * mant, -(fp.length : Int))
    | e :: tl =>
      if e = 'e' || e = 'E' then
        let (esgn, tl2) : Int × List Char := match tl with
          | '-' :: t2 => (-1, t2)
          | '+' :: t2 => (1, t2)
          | _ => (1, tl)
        if tl2 ≠ [] && tl2.all Char.isDigit then
          some (sgn * mant, esgn * digitsVal tl2 - fp.length)
        else none
      else none

/-- The integer a float representation denotes, when it denotes one. -/
def floatIntegral? (r : String) : Option Int :=
  match decParse r with
  | none => none
  | some (m, e) =>
    if 0 ≤ e then some (m * (10 : Int) ^ e.toNat)
    else if m % (10 : Int) ^ (-e).toNat = 0 then some (m / (10 : Int) ^ (-e).toNat)
    else none

/-- Modelled from pandas: `astype` of one cell to nullable `Int64`. -/
def castInt64 : Value → Except PyErr Value
  | .int n => .ok (.int n)
  | .null => .ok .null
  | .bool b => .ok (.int (if b then 1 else 0))
  | .float r =>
    match floatIntegral? r with
    | some n => .ok (.int n)
    | none => .error (.typeError "cannot safely cast non-equivalent values")
  | .str s =>
    match pyInt? s with
    | some n => .ok (.int n)
    | none => .error (.valueError s)
  | .ref _ => .error (.typeError "DataFrame")

/-- Modelled from pandas: `astype` of one cell to `float`. -/
def castFloat : Value → Except PyErr Value
  | .int n => .ok (.float (floatReprOfInt n))
  | .null => .ok .null
  | .bool b => .ok (.float (if b then "1.0" else "0.0"))
  | .float r => .ok (.float r)
  | .str s =>
    if intTok s then .ok (.float (floatReprOfInt (intOfTok s)))
    else if floatTok s then .ok (.float s)
    else .error (.valueError s)
  | .ref _ => .error (.typeError "DataFrame")

/-- Modelled from pandas: `df.astype(dtype_map)`; a key absent from the
columns raises `KeyError`. -/
def astypeDf (df : DataFrame) : List (String × String) → Except PyErr DataFrame
  | [] => .ok df
  | (col, target) :: rest =>
    match df.cols.indexOf? col with
    | none => .error (.keyError col)
    | some j => do
      let cast := if target = "Int64" then castInt64 else castFloat
      let vs ← mapME cast (getCol df j)
      let dt := if target = "Int64" then Dtype.int64Nullable else Dtype.float64
      astypeDf ⟨df.cols, df.dtypes.set j dt, setColRows df.rows j vs⟩ rest

/-- Lines 150-154 of the parser: the pandas dtype targeted by a `dtypes`
type tag (`int` ↦ nullable `Int64`, `float` ↦ `float`, anything else
left as is). -/
def dtypeTarget (t : String) : Option String :=
  if t = "int" then some "Int64"
  else if t = "float" then some "float"
  else none

/-- Lines 146-156 of the parser: build the pandas dtype map from the
block's `dtypes` metadata and apply it when non-empty. -/
def applyDtypes (md : List (String × MetaVal)) (df : DataFrame) :
    Except PyErr DataFrame :=
  match dictGet? md "dtypes" with
  | some (.dmap dtm) =>
    let dtype_map := dtm.foldl (fun acc p =>
      match dtypeTarget p.2 with
      | some tgt => dictInsert acc p.1 tgt
      | none => acc) []
    if dtype_map = [] then .ok df else astypeDf df dtype_map
  | _ => .ok df

/-! ## Block scanner -/

/-- A character of the header pattern's identifier class
`[A-Za-z0-9_]`. -/
def identChar (c : Char) : Bool := c.isAlphanum || c = '_'

/-- The header pattern `#([A-Za-z0-9_]+)(\x7b.*\x7d)?\s*$` applied to a
line: block name and optional brace group (braces included). -/
def matchHeader (line : String) : Option (String × Option String) :=
  match line.data with
  | '#' :: rest =>
    let name := rest.takeWhile identChar
    let tail := rest.dropWhile identChar
    if name = [] then none
    else
      let t3 := (tail.reverse.dropWhile isPyWs).reverse
      match t3 with
      | [] => some (ofChars name, none)
      | '\x7b' :: t4 =>
        if t3.getLast? = some '\x7d' && t4 ≠ [] then
          some (ofChars name, some (ofChars t3))
        else none
      | _ => none
  | _ => none

/-- Lines 132-140 of the parser: collect data lines until a line whose
stripped form starts with `#`; blank lines are dropped; returns the
collected body and the remaining lines. -/
def collectData : List String → (List String × List String)
  | [] => ([], [])
  | l :: ls =>
    if startsWithCh (pyStrip l) '#' then ([], l :: ls)
    else
      let (buf, rest) := collectData ls
      (if pyStrip l = "" then buf else rstripNl l :: buf, rest)

theorem dropWhileLenLe {α : Type} (p : α → Bool) (l : List α) :
    (l.dropWhile p).length ≤ l.length := by
  induction l with
  | nil => simp
  | cons a l ih =>
    simp only [List.dropWhile]
    split
    · exact Nat.le_succ_of_le ih
    · simp

theorem collectData_rest_length (ls : List String) :
    (collectData ls).2.length ≤ ls.length := by
  induction ls with
  | nil => simp [collectData]
  | cons l ls ih =>
    simp only [collectData]
    split
    · simp
    · simpa using Nat.le_succ_of_le ih

abbrev Tables := List (String × DataFrame)
abbrev Metadata := List (String × List (String × MetaVal))

/-- The block metadata carried by an optional brace group. -/
def mdOfGroup : Option String → List (String × MetaVal)
  | some ms => parse_metadata (dropFirstLast ms)
  | none => []

/-- Lines 142-158 of the parser: materialize one finished block — read
the collected body as CSV, apply the block's `dtypes`, and store the
table under the block name. The body accumulator is reversed (it is
collected head-first by the scanner). -/
def finishBlock (name : String) (md : List (String × MetaVal))
    (col_line : String) (buf : List String) (tables : Tables) :
    Except PyErr Tables :=
  match read_csv col_line buf.reverse with
  | .error e => .error e
  | .ok df =>
    match applyDtypes md df with
    | .error e => .error e
    | .ok df2 => .ok (dictInsert tables name df2)

/-- The control position of the scanning loop: at top level, after a
block header while skipping blank lines before the column-header line,
or inside a table body. -/
inductive ScanMode where
  | top
  | awaitCol (name : String) (md : List (String × MetaVal))
  | body (name : String) (md : List (String × MetaVal))
      (col_line : String) (buf : List String)

/-- Lines 102-158 of the parser: the block-scanning loop, one input
line per step. In `body` mode a line whose stripped form starts with
`#` first finishes the current block and is then handled by the outer
loop logic in the same step (the source breaks the inner loop without
advancing and re-examines the line). -/
def scanGo : List String → Tables → Metadata → ScanMode → Except PyErr (Tables × Metadata)
  | [], tables, metadata, .top => .ok (tables, metadata)
  | [], tables, metadata, .awaitCol _ _ => .ok (tables, metadata)
  | [], tables, metadata, .body name md col buf =>
    match finishBlock name md col buf tables with
    | .error e => .error e
    | .ok tables' => .ok (tables', metadata)
  | l :: ls, tables, metadata, .top =>
    let line := pyStrip l
    if line = "" then scanGo ls tables metadata .top
    else
      match matchHeader line with
      | none => scanGo ls tables metadata .top
      | some (name, metaStr) =>
        let md := mdOfGroup metaStr
        scanGo ls tables (dictInsert metadata name md) (.awaitCol name md)
  | l :: ls, tables, metadata, .awaitCol name md =>
    if pyStrip l = "" then scanGo ls tables metadata (.awaitCol name md)
    else scanGo ls tables metadata (.body name md (rstripNl l) [])
  | l :: ls, tables, metadata, .body name md col buf =>
    if startsWithCh (pyStrip l) '#' then
      match finishBlock name md col buf tables with
      | .error e => .error e
      | .ok tables' =>
        match matchHeader (pyStrip l) with
        | none => scanGo ls tables' metadata .top
        | some (name2, metaStr2) =>
          let md2 := mdOfGroup metaStr2
          scanGo ls tables' (dictInsert metadata name2 md2) (.awaitCol name2 md2)
    else if pyStrip l = "" then scanGo ls tables metadata (.body name md col buf)
    else scanGo ls tables metadata (.body name md col (rstripNl l :: buf))

/-- The block-scanning loop from its top state. -/
def scanBlocks (lines : List String) (tables : Tables) (metadata : Metadata) :
    Except PyErr (Tables × Metadata) :=
  scanGo lines tables metadata .top

/-! ## Reference resolver -/

/-- One cell of `df[col].apply(lambda ref: tables.get(ref, ref))`: a
string cell becomes a shared handle to the table of that name when one
exists, otherwise it is unchanged; a cell already holding a table
handle is an unhashable dict key (`TypeError` in Python). -/
def resolveCell (tables : Tables) : Value → Except PyErr Value
  | .str s => .ok (if dictContains tables s then .ref s else .str s)
  | .ref _ => .error (.typeError "unhashable type")
  | v => .ok v

/-- Resolve one listed column of a block's table (skipped when the
column is absent). -/
def applyRefCol (tables : Tables) (df : DataFrame) (col : String) :
    Except PyErr DataFrame :=
  match df.cols.indexOf? col with
  | none => .ok df
  | some j => do
    let vs ← mapME (resolveCell tables) (getCol df j)
    .ok ⟨df.cols, df.dtypes.set j .object, setColRows df.rows j vs⟩

/-- Lines 160-169 of the parser: the reference-resolution post-pass,
iterating blocks in parse order. -/
def resolveRefs : Metadata → Tables → Except PyErr Tables
  | [], tables => .ok tables
  | (tbl, md) :: rest, tables =>
    match dictGet? md "refs" with
    | none => resolveRefs rest tables
    | some r => do
      let df ← match dictGet? tables tbl with
        | some df => Except.ok df
        | none => Except.error (.keyError tbl)
      let df2 ← (metaIter r).foldlM (fun d c => applyRefCol tables d c) df
      resolveRefs rest (dictInsert tables tbl df2)

/-! ## Manifest reader and top-level parse -/

/-- Lines 88-96 of the parser: read manifest rows until a blank line or
a `#` line; each row is zipped against the header columns and must
provide `table` and an integer `start_line`. -/
def manifestLoop (cols : List String) :
    List String → List (String × Int) → Except PyErr (List (String × Int) × List String)
  | [], acc => .ok (acc, [])
  | l :: ls, acc =>
    let ln := pyStrip l
    if ln = "" || startsWithCh ln '#' then .ok (acc, l :: ls)
    else do
      let vals := (pySplit ln ',').map pyStrip
      let row := (List.zip cols vals).foldl (fun d p => dictInsert d p.1 p.2) []
      let t ← match dictGet? row "table" with
        | some t => Except.ok t
        | none => Except.error (.keyError "table")
      let slS ← match dictGet? row "start_line" with
        | some v => Except.ok v
        | none => Except.error (.keyError "start_line")
      let sl ← match pyInt? slS with
        | some n => Except.ok n
        | none => Except.error (.valueError "invalid literal for int")
      manifestLoop cols ls (dictInsert acc t sl)

/-- `parse_jcsv` on the file's lines (each line without its trailing
newline): optional manifest, block scan, reference resolution. The
manifest mapping is computed but, as in the source, unused in the
result. -/
def parse_jcsv (lines : List String) : Except PyErr Tables := do
  let rest0 := lines.dropWhile (fun l => pyStrip l = "")
  let body ←
    match rest0 with
    | [] => Except.ok ([] : List String)
    | l :: ls =>
      if pyStrip l = "#manifest" then
        match ls with
        | [] => Except.error PyErr.indexError
        | hdr :: ls2 =>
          let cols := (pySplit (pyStrip hdr) ',').map pyStrip
          (manifestLoop cols ls2 []).map (fun p => p.2)
      else Except.ok (l :: ls)
  let (tables, metadata) ← scanBlocks body [] []
  resolveRefs metadata tables

/-! ## Writer / offset calculator (`export_jcsv`) -/

/-- Python substring test `needle in hay` (char-list level). -/
def subChars (needle : List Char) : List Char → Bool
  | [] => needle.isEmpty
  | l@(_ :: t) => needle.isPrefixOf l || subChars needle t

/-- Lines 46-52 of the writer: the coarse type tag of a column dtype
(`"int" in str(dtype)`, `"float" in str(dtype)`, else `str`). -/
def dtypeTag (dt : Dtype) : String :=
  if subChars "int".data (dtypeStr dt).data then "int"
  else if subChars "float".data (dtypeStr dt).data then "float"
  else "str"

/-- Does pandas `to_csv` (QUOTE_MINIMAL) need to quote this field? -/
def csvNeedsQuote (s : String) : Bool :=
  s.data.any (fun c => c = ',' || c = '"' || c = '\n' || c = '\r')

/-- Double every double quote (CSV escaping). -/
def doubleQuotes (s : String) : String :=
  ofChars (s.data.foldr (fun c acc => if c = '"' then '"' :: '"' :: acc else c :: acc) [])

/-- Modelled from pandas `to_csv`: minimal quoting of one field. -/
def csvQuoteStr (s : String) : String :=
  if csvNeedsQuote s then "\"" ++ doubleQuotes s ++ "\"" else s

/-- Is the cell a resolved table handle? -/
def isRefV : Value → Bool
  | .ref _ => true
  | _ => false

/-- Modelled from pandas `to_csv`: the text of one cell (`null` is
written as the empty field; a resolved table handle would print the
DataFrame's repr, which no claim exercises). -/
def renderCell : Value → String
  | .str s => s
  | .int n => renderInt n
  | .float r => r
  | .bool b => if b then "True" else "False"
  | .null => ""
  | .ref _ => "<DataFrame>"

/-- Join strings with commas (Python `",".join`). -/
def joinComma : List String → String
  | [] => ""
  | [x] => x
  | x :: xs => x ++ "," ++ joinComma xs

/-- Concatenate strings in order (the writer's sequence of `f.write`
calls). -/
def strConcat : List String → String
  | [] => ""
  | s :: rest => s ++ strConcat rest

/-- Modelled from pandas: `df.to_csv(f, index=False)` — header line
then one line per row, each newline-terminated, minimal quoting. -/
def to_csv (df : DataFrame) : String :=
  joinComma (df.cols.map csvQuoteStr) ++ "\n"
    ++ strConcat (df.rows.map (fun r =>
        joinComma (r.map (fun v => csvQuoteStr (renderCell v))) ++ "\n"))

/-- Lines 19-27 of the writer: the two-pass offset computation.
`manifest_line_count = 1 + 1 + number of tables + 1`; the cursor starts
at `manifest_line_count + 1` and advances by `2 + row_count + 1` per
table. Start lines are accumulated as a Python dict. -/
def startLinesGo (acc : List (String × Nat)) (cursor : Nat) :
    List (String × DataFrame) → List (String × Nat)
  | [] => acc
  | (name, df) :: rest =>
    startLinesGo (dictInsert acc name cursor) (cursor + (2 + df.rows.length + 1)) rest

def manifestLineCount (tables : Tables) : Nat := 1 + 1 + tables.length + 1

def startLines (tables : Tables) : List (String × Nat) :=
  startLinesGo [] (manifestLineCount tables + 1) tables

/-- Lines 34-39 of the writer: one manifest row; the description is
wrapped in double quotes when it contains a comma. -/
def manifestRow (startLs : List (String × Nat)) (descriptions : List (String × String))
    (name : String) : String :=
  let desc := (dictGet? descriptions name).getD ""
  let desc := if containsCh desc ',' then "\"" ++ desc ++ "\"" else desc
  name ++ "," ++ renderNat ((dictGet? startLs name).getD 0) ++ "," ++ desc ++ "\n"

/-- Backslash-escape double quotes (`comment.replace(q, bs + q)`). -/
def escapeDq (s : String) : String :=
  ofChars (s.data.foldr (fun c acc => if c = '"' then '\\' :: '"' :: acc else c :: acc) [])

/-- Lines 43-61 of the writer: the metadata written in a block header —
recomputed `dtypes`, plus an optional quoted `comment`. -/
def blockMeta (descriptions : List (String × String)) (name : String)
    (df : DataFrame) : String :=
  let specs := List.zipWith (fun c dt => c ++ ":" ++ dtypeTag dt) df.cols df.dtypes
  let meta := "dtypes=[" ++ joinComma specs ++ "]"
  match dictGet? descriptions name with
  | some comment =>
    if comment = "" then meta
    else
      let val := if containsCh comment '"' then escapeDq comment else comment
      meta ++ ",comment=\"" ++ val ++ "\""
  | none => meta

/-- Line 64 and 67 of the writer: one block — a leading blank line, the
`#name\x7b...\x7d` title line, then the CSV text. -/
def blockChunk (descriptions : List (String × String)) (name : String)
    (df : DataFrame) : String :=
  "\n#" ++ name ++ "\x7b" ++ blockMeta descriptions name df ++ "\x7d\n" ++ to_csv df

/-- `export_jcsv`: the full emitted text (the writer writes it to the
destination file; the file contents are what we model). -/
def export_jcsv (tables : Tables) (descriptions : List (String × String)) : String :=
  let startLs := startLines tables
  "#manifest\n" ++ "table,start_line,description\n"
    ++ strConcat (tables.map (fun p => manifestRow startLs descriptions p.1))
    ++ strConcat (tables.map (fun p => blockChunk descriptions p.1 p.2))

/-! ## Lines of a text (for line numbering and for feeding the parser) -/

/-- Split a character list at newline characters. -/
def splitNl : List Char → List (List Char)
  | [] => [[]]
  | c :: cs =>
    let r := splitNl cs
    if c = '\n' then [] :: r
    else
      match r with
      | [] => [[c]]
      | p :: ps => (c :: p) :: ps

/-- The lines of a text, splitting at every newline (a trailing newline
yields a final empty line). -/
def textLines (s : String) : List String := (splitNl s.data).map ofChars

/-- The 1-based `k`-th line of a text. -/
def lineAt (s : String) (k : Nat) : Option String := (textLines s)[k - 1]?

/-- A two-row table with an int and a text column. -/
def exT1 : DataFrame :=
  ⟨["c", "d"], [.int64, .object], [[.int 1, .str "aa"], [.int 2, .str "bb"]]⟩

/-- A text column whose single value contains a newline. -/
def exNlA : DataFrame := ⟨["c"], [.object], [[.str ("x" ++ "\n" ++ "y")]]⟩

/-- A one-row integer table. -/
def exNlB : DataFrame := ⟨["d"], [.int64], [[.int 5]]⟩

/-! ## Claim theorems -/

/-- Claim C7: the metadata grammar parser maps
`dtypes=[id:int,name:str],refs=[orders]` to the dict with
`dtypes` re-parsed into the column-to-type map `{id:int, name:str}` and
`refs` kept as the string list `[orders]`; a `dtypes` item without a
colon is dropped. -/
theorem c7_metadata_grammar :
    parse_metadata "dtypes=[id:int,name:str],refs=[orders]" =
      [("dtypes", .dmap [("id", "int"), ("name", "str")]),
       ("refs", .list ["orders"])] ∧
    parse_metadata "dtypes=[id:int,bad]" = [("dtypes", .dmap [("id", "int")])] := by
  constructor <;> rfl

/-- Claim C2, counterexample: for the single table `t1` with 2 rows the
6th emitted line is the column-header line `c,d`, not the
`#t1\x7bdtypes=[...]\x7d` title line (which is the 5th line): the
spec's starting-cursor formula `manifest line count + 2` does not match
the code, which uses `manifest line count + 1`. -/
theorem c2_counterexample :
    lineAt (export_jcsv [("t1", exT1)] []) 6 = some "c,d" ∧
    startsWithCh "c,d" '#' = false ∧
    lineAt (export_jcsv [("t1", exT1)] []) 6 ≠
      some ("#t1" ++ "\x7b" ++ "dtypes=[c:int,d:str]" ++ "\x7d") := by
  refine ⟨by rfl, by rfl, by decide⟩

/-- Claim C2, amended: the manifest takes `2 + number of tables + 1`
lines, the starting cursor is `manifest line count + 1` (not `+ 2`),
each table advances the cursor by `2 + row_count + 1`, and concretely
for the single table `t1` with 2 rows the computed start line is 5 and
the 5th emitted line is literally the `#t1\x7bdtypes=[...]\x7d` line. -/
theorem c2_offset_formula :
    (∀ tables : Tables, manifestLineCount tables = 2 + tables.length + 1) ∧
    (∀ tables : Tables, startLines tables = startLinesGo [] (manifestLineCount tables + 1) tables) ∧
    (∀ acc cursor name df rest, startLinesGo acc cursor ((name, df) :: rest) =
      startLinesGo (dictInsert acc name cursor) (cursor + (2 + df.rows.length + 1)) rest) ∧
    startLines [("t1", exT1)] = [("t1", 5)] ∧
    lineAt (export_jcsv [("t1", exT1)] []) 5 =
      some ("#t1" ++ "\x7b" ++ "dtypes=[c:int,d:str]" ++ "\x7d") := by
  refine ⟨fun tables => rfl,
    fun tables => rfl, fun acc cursor name df rest => rfl, by rfl, by rfl⟩

/-- Claim C3, counterexample: a manifest whose rows lack the
`start_line` column aborts the whole parse with a `KeyError` — the
well-formed block `a` later in the document, which parses fine on its
own, is not parsed and no tables are returned. -/
theorem c3_counterexample :
    parse_jcsv ["#manifest", "table,description", "t1,hello", "", "#a", "c", "1"] =
      .error (.keyError "start_line") ∧
    parse_jcsv ["#a", "c", "1"] =
      .ok [("a", ⟨["c"], [.int64], [[.int 1]]⟩)] := by
  constructor <;> rfl

/-- Claim C4, counterexample: block `a`, whose second body row `1,2`
has more fields than the one-column width fixed by its header `c` and
first row `1`, aborts the whole parse with a pandas parse error — the
well-formed block `b` after it, which parses fine on its own, is not
parsed and no tables are returned. -/
theorem c4_counterexample :
    parse_jcsv ["#a", "c", "1", "1,2", "", "#b", "d", "5"] =
      .error (.parserError "Error tokenizing data") ∧
    parse_jcsv ["#b", "d", "5"] =
      .ok [("b", ⟨["d"], [.int64], [[.int 5]]⟩)] := by
  constructor <;> rfl

/-- Claim C1, counterexample: with a first table containing a
newline-bearing text cell, the writer's recorded `start_line` for the
second table `b` is 10, but the 10th emitted line is a blank line — the
`#b\x7b...\x7d` title line is the 11th: the recorded offset does not
match the emitted text. -/
theorem c1_counterexample :
    dictGet? (startLines [("a", exNlA), ("b", exNlB)]) "b" = some 10 ∧
    lineAt (export_jcsv [("a", exNlA), ("b", exNlB)] []) 10 = some "" ∧
    lineAt (export_jcsv [("a", exNlA), ("b", exNlB)] []) 10 ≠
      some ("#b" ++ "\x7b" ++ "dtypes=[d:int]" ++ "\x7d") ∧
    lineAt (export_jcsv [("a", exNlA), ("b", exNlB)] []) 11 =
      some ("#b" ++ "\x7b" ++ "dtypes=[d:int]" ++ "\x7d") := by
  refine ⟨by rfl, by rfl, by decide, by rfl⟩

/-- Claim C8: a column tagged `int` whose textual values are `1`, the
empty value and `3` materializes as a nullable integer column
(pandas `Int64`) with the empty value as null, raising no error; the
column tagged `float` becomes floating point; the column with the
unrecognized tag `weird` stays text. In general a tag other than `int`
and `float` targets no pandas dtype at all, so those columns are left
exactly as read, with no validation error. -/
theorem c8_dtype_casting :
    parse_jcsv ["#t" ++ "\x7b" ++ "dtypes=[a:int,b:float,c:weird]" ++ "\x7d",
                "a,b,c", "1,1,x", ",2,y", "3,3,z"] =
      .ok [("t", ⟨["a", "b", "c"], [.int64Nullable, .float64, .object],
        [[.int 1, .float "1.0", .str "x"],
         [.null, .float "2.0", .str "y"],
         [.int 3, .float "3.0", .str "z"]]⟩)] ∧
    (∀ t : String, t ≠ "int" → t ≠ "float" → dtypeTarget t = none) := by
  refine ⟨by rfl, ?_⟩
  intro t h1 h2
  simp [dtypeTarget, h1, h2]

/-- Witness for the general clause of `c8_dtype_casting`: the tag
`weird` (and likewise `str`) targets no pandas dtype. -/
theorem c8_dtype_casting_witness :
    dtypeTarget "weird" = none ∧ dtypeTarget "str" = none :=
  ⟨c8_dtype_casting.2 "weird" (by decide) (by decide),
   c8_dtype_casting.2 "str" (by decide) (by decide)⟩

/-! ## Helper lemmas for the general error-handling theorems -/

theorem dropWhile_append_all {α : Type} (p : α → Bool) (pre xs : List α)
    (h : ∀ l ∈ pre, p l = true) :
    (pre ++ xs).dropWhile p = xs.dropWhile p := by
  induction pre with
  | nil => rfl
  | cons a t ih =>
    have ha : p a = true := h a (by simp)
    simp only [List.cons_append, List.dropWhile_cons, ha, if_true]
    exact ih (fun l hl => h l (by simp [hl]))

theorem matchHeader_ne_empty {s : String} {x : String × Option String}
    (h : matchHeader s = some x) : s ≠ "" := by
  intro hs
  subst hs
  simp [matchHeader] at h

theorem mapME_ok_mem {α β : Type} {f : α → Except PyErr β} :
    ∀ {xs : List α} {ys : List β}, mapME f xs = .ok ys →
    ∀ {x : α}, x ∈ xs → ∃ y ∈ ys, f x = .ok y := by
  intro xs
  induction xs with
  | nil => intro ys h x hx; simp at hx
  | cons a t ih =>
    intro ys h x hx
    simp only [mapME, Bind.bind] at h
    cases hfa : f a with
    | error e => rw [hfa] at h; simp [Except.bind] at h
    | ok b =>
      rw [hfa] at h
      simp only [Except.bind] at h
      cases hmt : mapME f t with
      | error e => rw [hmt] at h; simp [Except.bind] at h
      | ok bs =>
        rw [hmt] at h
        simp only [Except.bind, Except.ok.injEq] at h
        subst h
        rcases List.mem_cons.mp hx with rfl | hxt
        · exact ⟨b, by simp, hfa⟩
        · obtain ⟨y, hy, hfy⟩ := ih hmt hxt
          exact ⟨y, by simp [hy], hfy⟩

/-- Claim C9: when the last line of the input is a block header (here:
with a `refs` metadata key) and nothing follows it, the scanner records
the block's metadata but stores no table for it (for any accumulated
state), and the resolution pass then fails to look the table up, so the
whole parse raises `KeyError` for the block name instead of returning
tables. -/
theorem c9_trailing_header (pre : List String) (h : String) (name ms : String)
    (hpre : ∀ l ∈ pre, pyStrip l = "")
    (hm : matchHeader (pyStrip h) = some (name, some ms))
    (hnm : pyStrip h ≠ "#manifest")
    (hrefs : dictContains (parse_metadata (dropFirstLast ms)) "refs" = true) :
    (∀ tbls mdacc, scanBlocks [h] tbls mdacc =
      .ok (tbls, dictInsert mdacc name (parse_metadata (dropFirstLast ms)))) ∧
    parse_jcsv (pre ++ [h]) = .error (.keyError name) := by
  have hne : pyStrip h ≠ "" := by
    intro he
    exact matchHeader_ne_empty hm he
  have hscan : ∀ tbls mdacc, scanBlocks [h] tbls mdacc =
      .ok (tbls, dictInsert mdacc name (parse_metadata (dropFirstLast ms))) := by
    intro tbls mdacc
    simp only [scanBlocks, scanGo, hne, if_false, hm, mdOfGroup]
  refine ⟨hscan, ?_⟩
  have hdrop : (pre ++ [h]).dropWhile (fun l => pyStrip l = "") = [h] := by
    rw [dropWhile_append_all _ pre [h] (by intro l hl; simp [hpre l hl])]
    simp [List.dropWhile, hne]
  obtain ⟨r, hr⟩ : ∃ r, dictGet? (parse_metadata (dropFirstLast ms)) "refs" = some r := by
    unfold dictContains at hrefs
    cases hg : dictGet? (parse_metadata (dropFirstLast ms)) "refs" with
    | none => rw [hg] at hrefs; simp at hrefs
    | some r => exact ⟨r, rfl⟩
  simp only [parse_jcsv, hdrop, Bind.bind, hnm, if_false, Except.bind]
  rw [hscan [] []]
  simp only [dictInsert, resolveRefs, hr, dictGet?, Bind.bind, Except.bind]

/-- Witness for `c9_trailing_header` at a concrete input. -/
theorem c9_trailing_header_witness :
    parse_jcsv ["", "#b" ++ "\x7b" ++ "refs=[x]" ++ "\x7d"] =
      .error (.keyError "b") :=
  (c9_trailing_header [""] ("#b" ++ "\x7b" ++ "refs=[x]" ++ "\x7d") "b"
    ("\x7b" ++ "refs=[x]" ++ "\x7d")
    (by decide) (by rfl) (by decide) (by rfl)).2

/-- Claim C10: in a table body, any line whose stripped form starts
with `#` terminates the body — the block's table is built from the rows
collected so far, and if the line is not a well-formed header the outer
loop drops it; at top level, every line that does not match the header
pattern (blank or not) is skipped, so any run of such lines contributes
to no returned table. -/
theorem c10_hash_lines (l : String) (ls junk rest : List String)
    (name : String) (md : List (String × MetaVal)) (col : String)
    (buf : List String) (tbls : Tables) (mdacc : Metadata)
    (hh : startsWithCh (pyStrip l) '#' = true)
    (hnm : matchHeader (pyStrip l) = none)
    (hjunk : ∀ j ∈ junk, matchHeader (pyStrip j) = none) :
    scanGo (l :: ls) tbls mdacc (.body name md col buf) =
      (match finishBlock name md col buf tbls with
       | .error e => .error e
       | .ok tbls' => scanGo ls tbls' mdacc .top) ∧
    scanGo (junk ++ rest) tbls mdacc .top = scanGo rest tbls mdacc .top := by
  have main : ∀ (junk2 : List String),
      (∀ j ∈ junk2, matchHeader (pyStrip j) = none) →
      ∀ (t2 : Tables) (m2 : Metadata),
      scanGo (junk2 ++ rest) t2 m2 .top = scanGo rest t2 m2 .top := by
    intro junk2
    induction junk2 with
    | nil => intro _ t2 m2; rfl
    | cons j t ih =>
      intro hj2 t2 m2
      have hj : matchHeader (pyStrip j) = none := hj2 j (by simp)
      have ht : ∀ x ∈ t, matchHeader (pyStrip x) = none :=
        fun x hx => hj2 x (by simp [hx])
      by_cases hb : pyStrip j = ""
      · simp only [List.cons_append, scanGo, hb, if_true]
        exact ih ht t2 m2
      · simp only [List.cons_append, scanGo, hb, if_false, hj]
        exact ih ht t2 m2
  exact ⟨by simp only [scanGo, hh, if_true, hnm], main junk hjunk tbls mdacc⟩

/-- Witness for `c10_hash_lines` at concrete inputs: the `#`-line
`#not a header!` ends the body of a one-column block, and junk lines
after it reach no table. -/
theorem c10_hash_lines_witness :
    scanGo ["#not a header!"] [] [] (.body "a" [] "c" ["1"]) =
      (match finishBlock "a" [] "c" ["1"] [] with
       | .error e => .error e
       | .ok tbls' => scanGo [] tbls' [] .top) ∧
    scanGo (["#not a header!", "junk,junk"] ++ ["#b", "d", "5"]) [] [] .top =
      scanGo ["#b", "d", "5"] [] [] .top :=
  c10_hash_lines "#not a header!" [] ["#not a header!", "junk,junk"]
    ["#b", "d", "5"] "a" [] "c" ["1"] [] []
    (by rfl) (by rfl) (by decide)

/-- The row dict the manifest reader builds from a header line and a
data line (Python `dict(zip(cols, vals))`). -/
def manifestRowDict (hdrLine rowLine : String) : List (String × String) :=
  let cols := (pySplit (pyStrip hdrLine) ',').map pyStrip
  let vals := (pySplit (pyStrip rowLine) ',').map pyStrip
  (List.zip cols vals).foldl (fun d p => dictInsert d p.1 p.2) []

/-- Claim C3, amended: a manifest data row whose zipped dict lacks
`table` or `start_line` makes the whole parse fail with a `KeyError`
(Python has no ManifestError and nothing catches the lookup): no block
of the document is parsed and no tables are returned. -/
theorem c3_manifest_error (hdrLine rowLine : String) (rest : List String)
    (hmiss : dictGet? (manifestRowDict hdrLine rowLine) "table" = none ∨
             dictGet? (manifestRowDict hdrLine rowLine) "start_line" = none)
    (hnb : pyStrip rowLine ≠ "")
    (hnh : startsWithCh (pyStrip rowLine) '#' = false) :
    ∃ e, parse_jcsv ("#manifest" :: hdrLine :: rowLine :: rest) = .error e := by
  have h0 : pyStrip "#manifest" = "#manifest" := by decide
  have hdrop : ("#manifest" :: hdrLine :: rowLine :: rest).dropWhile
      (fun l => pyStrip l = "") = "#manifest" :: hdrLine :: rowLine :: rest := by
    rw [List.dropWhile_cons]
    simp [h0]
  have hloop : ∃ e, manifestLoop ((pySplit (pyStrip hdrLine) ',').map pyStrip)
      (rowLine :: rest) [] = .error e := by
    simp only [manifestLoop, hnb, hnh, Bind.bind, Except.bind]
    norm_num
    have hrow : ((((pySplit (pyStrip hdrLine) ',').map pyStrip).zip
        ((pySplit (pyStrip rowLine) ',').map pyStrip)).foldl
          (fun d p => dictInsert d p.1 p.2) []) = manifestRowDict hdrLine rowLine := rfl
    rw [hrow]
    cases ht : dictGet? (manifestRowDict hdrLine rowLine) "table" with
    | none => exact ⟨.keyError "table", rfl⟩
    | some t =>
      rcases hmiss with hmiss | hmiss
      · rw [ht] at hmiss; cases hmiss
      · rw [hmiss]
        exact ⟨.keyError "start_line", rfl⟩
  obtain ⟨e, he⟩ := hloop
  refine ⟨e, ?_⟩
  simp only [parse_jcsv, hdrop, h0, if_true, Bind.bind, Except.bind, he, Except.map]

/-- Witness for `c3_manifest_error` at a concrete input. -/
theorem c3_manifest_error_witness :
    ∃ e, parse_jcsv ("#manifest" :: "table,description" :: "t1,hello"
      :: ["", "#a", "c", "1"]) = .error e :=
  c3_manifest_error "table,description" "t1,hello" ["", "#a", "c", "1"]
    (by right; rfl) (by decide) (by rfl)

/-- A body row after the first that splits into more fields than the
block's column header makes `finishBlock` fail when the first row stays
within the header's width (so no implicit index arises), whatever else
was collected. -/
theorem finishBlock_excess_error (name : String)
    (md : List (String × MetaVal)) (col good bad : String)
    (csC csG csB : List String)
    (hc : csvSplitLine col = .ok csC)
    (hg : csvSplitLine good = .ok csG)
    (hb : csvSplitLine bad = .ok csB)
    (hlg : csG.length ≤ (unnamedFix 0 csC).length)
    (hlen : (unnamedFix 0 csC).length < csB.length) :
    ∀ (buf tail : List String), buf.reverse = good :: tail → bad ∈ tail →
    ∀ (tbls : Tables), ∃ e, finishBlock name md col buf tbls = .error e := by
  intro buf tail hrev hmem tbls
  simp only [finishBlock, read_csv, Bind.bind, hc, Except.bind, hrev]
  cases hbs : mapME csvSplitLine tail with
  | error e =>
    have hmap : mapME csvSplitLine (good :: tail) = .error e := by
      simp only [mapME, Bind.bind, Except.bind, hg, hbs]
    simp only [hmap]
    exact ⟨e, rfl⟩
  | ok bs =>
    have hmap : mapME csvSplitLine (good :: tail) = .ok (csG :: bs) := by
      simp only [mapME, Bind.bind, Except.bind, hg, hbs]
    obtain ⟨y, hy, hfy⟩ := mapME_ok_mem hbs hmem
    have hyB : csB = y := by rw [hb] at hfy; injection hfy
    subst hyB
    have hany : (csG :: bs).any (fun r => (unnamedFix 0 csC).length < r.length)
        = true :=
      List.any_eq_true.mpr ⟨csB, List.mem_cons_of_mem _ hy, by simp [hlen]⟩
    simp only [hmap, List.head?_cons, Option.map_some', Option.getD_some,
      Nat.max_eq_left hlg, hany, if_true]
    exact ⟨.parserError "Error tokenizing data", rfl⟩

/-- Claim C4, amended: a block whose body contains, after the first
data row (whose extra leading fields pandas would read as an implicit
index), a row with more CSV fields than the width fixed by the header
and first row aborts the entire parse with a pandas parse error (no
BlockParseError exists and nothing catches the failure): the block is
not skipped, parsing does not continue, and no tables at all are
returned — whatever follows in the document. -/
theorem c4_block_error_fatal (hdrLine name colLine goodLine badLine : String)
    (rest : List String) (csC csG csB : List String)
    (hm : matchHeader (pyStrip hdrLine) = some (name, none))
    (hnm : pyStrip hdrLine ≠ "#manifest")
    (hcnb : pyStrip colLine ≠ "")
    (hgnb : pyStrip goodLine ≠ "")
    (hgnh : startsWithCh (pyStrip goodLine) '#' = false)
    (hbnb : pyStrip badLine ≠ "")
    (hbnh : startsWithCh (pyStrip badLine) '#' = false)
    (hc : csvSplitLine (rstripNl colLine) = .ok csC)
    (hg : csvSplitLine (rstripNl goodLine) = .ok csG)
    (hb : csvSplitLine (rstripNl badLine) = .ok csB)
    (hlg : csG.length ≤ (unnamedFix 0 csC).length)
    (hlen : (unnamedFix 0 csC).length < csB.length) :
    ∃ e, parse_jcsv (hdrLine :: colLine :: goodLine :: badLine :: rest)
      = .error e := by
  have hne : pyStrip hdrLine ≠ "" := fun he => matchHeader_ne_empty hm he
  have hbody : ∀ (rs buf tail : List String),
      buf.reverse = rstripNl goodLine :: tail → rstripNl badLine ∈ tail →
      ∀ (tbls : Tables) (mdacc : Metadata),
      ∃ e, scanGo rs tbls mdacc (.body name (mdOfGroup none) (rstripNl colLine) buf)
        = .error e := by
    intro rs
    induction rs with
    | nil =>
      intro buf tail hrev hmem tbls mdacc
      obtain ⟨e, he⟩ := finishBlock_excess_error name (mdOfGroup none)
        (rstripNl colLine) (rstripNl goodLine) (rstripNl badLine) csC csG csB
        hc hg hb hlg hlen buf tail hrev hmem tbls
      exact ⟨e, by simp only [scanGo, he]⟩
    | cons l ls ih =>
      intro buf tail hrev hmem tbls mdacc
      by_cases hsh : startsWithCh (pyStrip l) '#' = true
      · obtain ⟨e, he⟩ := finishBlock_excess_error name (mdOfGroup none)
          (rstripNl colLine) (rstripNl goodLine) (rstripNl badLine) csC csG csB
          hc hg hb hlg hlen buf tail hrev hmem tbls
        exact ⟨e, by simp only [scanGo, hsh, if_true, he]⟩
      · have hsh' : startsWithCh (pyStrip l) '#' = false := by
          revert hsh; cases startsWithCh (pyStrip l) '#' <;> simp
        by_cases hbl : pyStrip l = ""
        · obtain ⟨e, he⟩ := ih buf tail hrev hmem tbls mdacc
          exact ⟨e, by simp only [scanGo, hsh', if_false, hbl, if_true]; exact he⟩
        · obtain ⟨e, he⟩ := ih (rstripNl l :: buf) (tail ++ [rstripNl l])
            (by rw [List.reverse_cons, hrev]; rfl)
            (List.mem_append_left _ hmem) tbls mdacc
          exact ⟨e, by simp only [scanGo, hsh', if_false, hbl]; exact he⟩
  obtain ⟨e, he⟩ := hbody rest [rstripNl badLine, rstripNl goodLine]
    [rstripNl badLine] rfl (by simp) [] [(name, mdOfGroup none)]
  refine ⟨e, ?_⟩
  have hdrop : (hdrLine :: colLine :: goodLine :: badLine :: rest).dropWhile
      (fun l => pyStrip l = "") = hdrLine :: colLine :: goodLine :: badLine :: rest := by
    rw [List.dropWhile_cons]
    simp [hne]
  have hgnh' : ¬(startsWithCh (pyStrip goodLine) '#' = true) := by simp [hgnh]
  have hbnh' : ¬(startsWithCh (pyStrip badLine) '#' = true) := by simp [hbnh]
  simp only [parse_jcsv, hdrop, Bind.bind, Except.bind, if_neg hnm, scanBlocks, scanGo,
    if_neg hne, hm, if_neg hcnb, if_neg hgnh', if_neg hgnb, if_neg hbnh', if_neg hbnb,
    dictInsert]
  rw [he]

/-- Witness for `c4_block_error_fatal` at a concrete input. -/
theorem c4_block_error_fatal_witness :
    ∃ e, parse_jcsv ("#a" :: "c" :: "1" :: "1,2" :: ["", "#b", "d", "5"])
      = .error e :=
  c4_block_error_fatal "#a" "a" "c" "1" "1,2" ["", "#b", "d", "5"]
    ["c"] ["1"] ["1", "2"]
    (by rfl) (by decide) (by decide) (by decide) (by rfl) (by decide) (by rfl)
    (by rfl) (by rfl) (by rfl) (by decide) (by decide)

/-! ## Reference resolution: specification-level cell map and lemmas -/

/-- What resolution does to one cell, as a pure function of the
document's table map: a string cell naming a table becomes the shared
handle; any other cell is unchanged. -/
def resolveSpec (tables : Tables) : Value → Value
  | .str s => if dictContains tables s then .ref s else .str s
  | v => v

theorem resolveSpec_idem (tables : Tables) (v : Value) :
    resolveSpec tables (resolveSpec tables v) = resolveSpec tables v := by
  cases v <;> try rfl
  case str s =>
    simp only [resolveSpec]
    by_cases h : dictContains tables s = true
    · simp [h, resolveSpec]
    · simp [h, resolveSpec]

theorem dictGet?_insert {α : Type} (d : List (String × α)) (k k' : String) (v : α) :
    dictGet? (dictInsert d k v) k' = if k = k' then some v else dictGet? d k' := by
  induction d with
  | nil => simp [dictInsert, dictGet?]
  | cons p rest ih =>
    obtain ⟨k0, v0⟩ := p
    by_cases h0 : k0 = k
    · subst h0
      simp only [dictInsert, if_pos rfl, dictGet?]
      by_cases h2 : k0 = k' <;> simp [h2]
    · simp only [dictInsert, if_neg h0, dictGet?]
      by_cases h1 : k0 = k'
      · subst h1
        rw [if_pos rfl]
        rw [if_neg (fun h => h0 h.symm)]
        rw [if_pos rfl]
      · rw [if_neg h1, ih]
        by_cases h2 : k = k' <;> simp [h2, h1]

theorem dictGet?_mem_keys {α : Type} {d : List (String × α)} {k : String} {v : α}
    (h : dictGet? d k = some v) : k ∈ dictKeys d := by
  induction d with
  | nil => simp [dictGet?] at h
  | cons p rest ih =>
    simp only [dictGet?] at h
    by_cases h0 : p.1 = k
    · simp [dictKeys, h0]
    · rw [if_neg h0] at h
      have := ih h
      simp only [dictKeys, List.map_cons, List.mem_cons]
      right
      simpa [dictKeys] using this

theorem dictContains_iff_mem {α : Type} (d : List (String × α)) (k : String) :
    dictContains d k = true ↔ k ∈ dictKeys d := by
  constructor
  · intro h
    unfold dictContains at h
    cases hg : dictGet? d k with
    | none => rw [hg] at h; simp at h
    | some v => exact dictGet?_mem_keys hg
  · intro h
    induction d with
    | nil => simp [dictKeys] at h
    | cons p rest ih =>
      simp only [dictKeys, List.map_cons, List.mem_cons] at h
      unfold dictContains dictGet?
      by_cases h0 : p.1 = k
      · simp [h0]
      · rcases h with h | h
        · exact absurd h.symm h0
        · simp only [if_neg h0]
          exact ih h

theorem dictContains_ext {t1 t0 : Tables} (h : dictKeys t1 = dictKeys t0)
    (s : String) : dictContains t1 s = dictContains t0 s := by
  by_cases h1 : s ∈ dictKeys t0
  · have a1 : dictContains t1 s = true := (dictContains_iff_mem t1 s).mpr (h ▸ h1)
    have a0 : dictContains t0 s = true := (dictContains_iff_mem t0 s).mpr h1
    rw [a1, a0]
  · have a1 : ¬ dictContains t1 s = true := fun hc =>
      h1 (h ▸ (dictContains_iff_mem t1 s).mp hc)
    have a0 : ¬ dictContains t0 s = true := fun hc =>
      h1 ((dictContains_iff_mem t0 s).mp hc)
    simp only [Bool.not_eq_true] at a1 a0
    rw [a1, a0]

theorem resolveSpec_ext {t1 t0 : Tables} (h : dictKeys t1 = dictKeys t0) :
    ∀ v, resolveSpec t1 v = resolveSpec t0 v := by
  intro v
  cases v <;> simp only [resolveSpec]
  rw [dictContains_ext h]

theorem dictKeys_insert_mem {α : Type} {d : List (String × α)} {k : String}
    (h : k ∈ dictKeys d) (v : α) : dictKeys (dictInsert d k v) = dictKeys d := by
  induction d with
  | nil => simp [dictKeys] at h
  | cons p rest ih =>
    simp only [dictKeys, List.map_cons, List.mem_cons] at h
    unfold dictInsert
    by_cases h0 : p.1 = k
    · simp [dictKeys, h0]
    · rcases h with h | h
      · exact absurd h.symm h0
      · simp only [if_neg h0, dictKeys, List.map_cons]
        have := ih h
        simp only [dictKeys] at this
        rw [this]

theorem resolveCell_ok {tables : Tables} {v w : Value}
    (h : resolveCell tables v = .ok w) : w = resolveSpec tables v := by
  cases v <;> simp only [resolveCell, resolveSpec] at h ⊢ <;>
    first
    | (injection h with h; exact h.symm)
    | cases h

theorem mapME_resolve_ok {tables : Tables} :
    ∀ {vs ws : List Value}, mapME (resolveCell tables) vs = .ok ws →
    ws = vs.map (resolveSpec tables) := by
  intro vs
  induction vs with
  | nil =>
    intro ws h
    simp only [mapME, Except.ok.injEq] at h
    simp [← h]
  | cons v t ih =>
    intro ws h
    simp only [mapME, Bind.bind] at h
    cases hv : resolveCell tables v with
    | error e => rw [hv] at h; simp [Except.bind] at h
    | ok w =>
      rw [hv] at h
      simp only [Except.bind] at h
      cases hm : mapME (resolveCell tables) t with
      | error e => rw [hm] at h; simp [Except.bind] at h
      | ok ws' =>
        rw [hm] at h
        simp only [Except.bind, Except.ok.injEq] at h
        subst h
        simp [resolveCell_ok hv, ih hm]

/-- Setting column `j` of every row to the resolved value of its old
column-`j` cell yields exactly the resolved column (rows shorter than
`j` read and keep `null`, which resolution fixes). -/
theorem setColRows_getCol_self (t : Tables) (rows : List (List Value)) (j : Nat) :
    (setColRows rows j ((rows.map (fun r => r.getD j .null)).map (resolveSpec t))).map
        (fun r => r.getD j .null) =
      (rows.map (fun r => r.getD j .null)).map (resolveSpec t) := by
  induction rows with
  | nil => rfl
  | cons r rest ih =>
    simp only [List.map_cons, setColRows, List.zipWith_cons_cons, List.map_cons]
    refine congrArg₂ _ ?_ ih
    rw [List.getD_eq_getElem?_getD, List.getElem?_set]
    by_cases hj : j < r.length
    · simp [hj]
    · simp only [if_pos rfl, if_neg hj]
      have : r.getD j .null = .null := by
        rw [List.getD_eq_getElem?_getD, List.getElem?_eq_none (by omega)]
        rfl
      rw [this]
      rfl

/-- Setting column `j` leaves every other column unchanged (the
replacement column has full length). -/
theorem setColRows_getCol_other (rows : List (List Value)) (vs : List Value)
    (j j' : Nat) (hlen : vs.length = rows.length) (hne : j' ≠ j) :
    (setColRows rows j vs).map (fun r => r.getD j' .null) =
      rows.map (fun r => r.getD j' .null) := by
  induction rows generalizing vs with
  | nil => simp [setColRows]
  | cons r rest ih =>
    cases vs with
    | nil => simp at hlen
    | cons v vt =>
      simp only [setColRows, List.zipWith_cons_cons, List.map_cons]
      refine congrArg₂ _ ?_ (ih vt (by simpa using hlen))
      rw [List.getD_eq_getElem?_getD, List.getElem?_set_ne (fun h => hne h.symm),
        ← List.getD_eq_getElem?_getD]

theorem setColRows_length (rows : List (List Value)) (vs : List Value) (j : Nat)
    (hlen : vs.length = rows.length) :
    (setColRows rows j vs).length = rows.length := by
  simp [setColRows, hlen]

/-- The invariant maintained over a block's columns during resolution:
columns and row count unchanged, every column either original or
resolved. -/
def tblInv (t : Tables) (df0 df1 : DataFrame) : Prop :=
  df1.cols = df0.cols ∧ df1.rows.length = df0.rows.length ∧
  ∀ j : Nat, getCol df1 j = getCol df0 j ∨
    getCol df1 j = (getCol df0 j).map (resolveSpec t)

theorem applyRefCol_step (t : Tables) (df0 df1 df2 : DataFrame) (c : String)
    (hinv : tblInv t df0 df1) (hok : applyRefCol t df1 c = .ok df2) :
    tblInv t df0 df2 ∧
    (∀ j, getCol df1 j = (getCol df0 j).map (resolveSpec t) →
      getCol df2 j = (getCol df0 j).map (resolveSpec t)) ∧
    (∀ j, df0.cols.indexOf? c = some j →
      getCol df2 j = (getCol df0 j).map (resolveSpec t)) := by
  obtain ⟨hcols, hlen, hcol⟩ := hinv
  unfold applyRefCol at hok
  cases hidx : df1.cols.indexOf? c with
  | none =>
    rw [hidx] at hok
    injection hok with hok
    subst hok
    refine ⟨⟨hcols, hlen, hcol⟩, fun j h => h, fun j hj => ?_⟩
    rw [hcols] at hidx
    rw [hidx] at hj
    cases hj
  | some j =>
    rw [hidx] at hok
    simp only [Bind.bind] at hok
    cases hmap : mapME (resolveCell t) (getCol df1 j) with
    | error e => rw [hmap] at hok; simp [Except.bind] at hok
    | ok vs =>
      rw [hmap] at hok
      simp only [Except.bind, Except.ok.injEq] at hok
      have hvs : vs = (getCol df1 j).map (resolveSpec t) := mapME_resolve_ok hmap
      subst hvs
      have hdf2 : df2 = ⟨df1.cols, df1.dtypes.set j .object,
          setColRows df1.rows j ((getCol df1 j).map (resolveSpec t))⟩ := hok.symm
      subst hdf2
      have hvlen : ((getCol df1 j).map (resolveSpec t)).length = df1.rows.length := by
        simp [getCol]
      have hspec2 : ∀ (l : List Value),
          (l.map (resolveSpec t)).map (resolveSpec t) = l.map (resolveSpec t) := by
        intro l
        rw [List.map_map]
        exact List.map_congr_left (fun a _ => resolveSpec_idem t a)
      have hColJ : getCol ⟨df1.cols, df1.dtypes.set j .object,
          setColRows df1.rows j ((getCol df1 j).map (resolveSpec t))⟩ j =
          (getCol df1 j).map (resolveSpec t) := by
        show (setColRows df1.rows j
            ((df1.rows.map (fun r => r.getD j .null)).map (resolveSpec t))).map
              (fun r => r.getD j .null) = _
        rw [setColRows_getCol_self]
        rfl
      have hColNe : ∀ j', j' ≠ j → getCol ⟨df1.cols, df1.dtypes.set j .object,
          setColRows df1.rows j ((getCol df1 j).map (resolveSpec t))⟩ j' =
          getCol df1 j' := by
        intro j' hne
        show (setColRows df1.rows j _).map (fun r => r.getD j' .null) = _
        rw [setColRows_getCol_other _ _ _ _ hvlen hne]
        rfl
      have hjmapped : getCol ⟨df1.cols, df1.dtypes.set j .object,
          setColRows df1.rows j ((getCol df1 j).map (resolveSpec t))⟩ j =
          (getCol df0 j).map (resolveSpec t) := by
        rw [hColJ]
        rcases hcol j with h | h
        · rw [h]
        · rw [h, hspec2]
      refine ⟨⟨hcols, ?_, ?_⟩, ?_, ?_⟩
      · show (setColRows df1.rows j _).length = df0.rows.length
        rw [setColRows_length _ _ _ hvlen, hlen]
      · intro j'
        by_cases hj' : j' = j
        · subst hj'
          right
          exact hjmapped
        · rw [hColNe j' hj']
          exact hcol j'
      · intro j' hmapped
        by_cases hj' : j' = j
        · subst hj'
          exact hjmapped
        · rw [hColNe j' hj']
          exact hmapped
      · intro j0 hj0
        rw [hcols] at hidx
        rw [hidx] at hj0
        injection hj0 with hj0
        subst hj0
        exact hjmapped

/-- Resolving a block's listed columns in order keeps the invariant,
keeps already-resolved columns resolved, and resolves every listed
column present among the block's columns. -/
theorem foldRefCols (t : Tables) (df0 : DataFrame) :
    ∀ (cs : List String) (df1 df2 : DataFrame), tblInv t df0 df1 →
    List.foldlM (fun d c => applyRefCol t d c) df1 cs = .ok df2 →
    tblInv t df0 df2 ∧
    (∀ j, getCol df1 j = (getCol df0 j).map (resolveSpec t) →
      getCol df2 j = (getCol df0 j).map (resolveSpec t)) ∧
    (∀ c ∈ cs, ∀ j, df0.cols.indexOf? c = some j →
      getCol df2 j = (getCol df0 j).map (resolveSpec t)) := by
  intro cs
  induction cs with
  | nil =>
    intro df1 df2 hinv hok
    simp only [List.foldlM] at hok
    injection hok with hok
    subst hok
    exact ⟨hinv, fun j h => h, by simp⟩
  | cons c cs' ih =>
    intro df1 df2 hinv hok
    rw [List.foldlM_cons] at hok
    simp only [Bind.bind] at hok
    cases hstep : applyRefCol t df1 c with
    | error e => rw [hstep] at hok; simp [Except.bind] at hok
    | ok dfm =>
      rw [hstep] at hok
      simp only [Except.bind] at hok
      obtain ⟨hinvm, hkeep, hc⟩ := applyRefCol_step t df0 df1 dfm c hinv hstep
      obtain ⟨hinv2, hkeep2, hall2⟩ := ih dfm df2 hinvm hok
      refine ⟨hinv2, fun j hm => hkeep2 j (hkeep j hm), ?_⟩
      intro c' hc' j hj
      rcases List.mem_cons.mp hc' with rfl | hmem
      · exact hkeep2 j (hc j hj)
      · exact hall2 c' hmem j hj

theorem resolveRefs_untouched :
    ∀ (mds : Metadata) (t t' : Tables) (nm : String),
    (∀ p ∈ mds, p.1 ≠ nm) → resolveRefs mds t = .ok t' →
    dictGet? t' nm = dictGet? t nm := by
  intro mds
  induction mds with
  | nil =>
    intro t t' nm _ hok
    simp only [resolveRefs] at hok
    injection hok with hok
    rw [hok]
  | cons p rest ih =>
    intro t t' nm hne hok
    obtain ⟨tbl, md⟩ := p
    have htbl : tbl ≠ nm := hne (tbl, md) (by simp)
    have hrest : ∀ q ∈ rest, q.1 ≠ nm := fun q hq => hne q (by simp [hq])
    simp only [resolveRefs] at hok
    cases hr : dictGet? md "refs" with
    | none =>
      rw [hr] at hok
      exact ih t t' nm hrest hok
    | some r =>
      rw [hr] at hok
      simp only [Bind.bind] at hok
      cases hget : dictGet? t tbl with
      | none => rw [hget] at hok; simp [Except.bind] at hok
      | some df =>
        rw [hget] at hok
        simp only [Except.bind] at hok
        cases hfold : List.foldlM (fun d c => applyRefCol t d c) df (metaIter r) with
        | error e => rw [hfold] at hok; simp [Except.bind] at hok
        | ok df2 =>
          rw [hfold] at hok
          simp only [Except.bind] at hok
          rw [ih _ t' nm hrest hok, dictGet?_insert, if_neg htbl]

theorem resolveRefs_keys :
    ∀ (mds : Metadata) (t t' : Tables), resolveRefs mds t = .ok t' →
    dictKeys t' = dictKeys t := by
  intro mds
  induction mds with
  | nil =>
    intro t t' hok
    simp only [resolveRefs] at hok
    injection hok with hok
    rw [hok]
  | cons p rest ih =>
    intro t t' hok
    obtain ⟨tbl, md⟩ := p
    simp only [resolveRefs] at hok
    cases hr : dictGet? md "refs" with
    | none =>
      rw [hr] at hok
      exact ih t t' hok
    | some r =>
      rw [hr] at hok
      simp only [Bind.bind] at hok
      cases hget : dictGet? t tbl with
      | none => rw [hget] at hok; simp [Except.bind] at hok
      | some df =>
        rw [hget] at hok
        simp only [Except.bind] at hok
        cases hfold : List.foldlM (fun d c => applyRefCol t d c) df (metaIter r) with
        | error e => rw [hfold] at hok; simp [Except.bind] at hok
        | ok df2 =>
          rw [hfold] at hok
          simp only [Except.bind] at hok
          rw [ih _ t' hok, dictKeys_insert_mem (dictGet?_mem_keys hget)]

theorem resolveRefs_append :
    ∀ (as bs : Metadata) (t : Tables),
    resolveRefs (as ++ bs) t =
      match resolveRefs as t with
      | .ok t1 => resolveRefs bs t1
      | .error e => .error e := by
  intro as
  induction as with
  | nil => intro bs t; rfl
  | cons p rest ih =>
    intro bs t
    obtain ⟨tbl, md⟩ := p
    simp only [List.cons_append, resolveRefs]
    cases hr : dictGet? md "refs" with
    | none => exact ih bs t
    | some r =>
      simp only [Bind.bind]
      cases hget : dictGet? t tbl with
      | none => simp [Except.bind]
      | some df =>
        simp only [Except.bind]
        cases hfold : List.foldlM (fun d c => applyRefCol t d c) df (metaIter r) with
        | error e => simp [Except.bind]
        | ok df2 => exact ih bs (dictInsert t tbl df2)

theorem dict_split {α : Type} :
    ∀ (d : List (String × α)) (k : String) (v : α),
    (dictKeys d).Nodup → dictGet? d k = some v →
    ∃ pre post, d = pre ++ (k, v) :: post ∧
      (∀ p ∈ pre, p.1 ≠ k) ∧ (∀ p ∈ post, p.1 ≠ k) := by
  intro d
  induction d with
  | nil => intro k v _ h; simp [dictGet?] at h
  | cons p rest ih =>
    intro k v hnd hget
    obtain ⟨k0, v0⟩ := p
    simp only [dictKeys, List.map_cons, List.nodup_cons] at hnd
    simp only [dictGet?] at hget
    by_cases h0 : k0 = k
    · subst h0
      rw [if_pos rfl] at hget
      injection hget with hget
      subst hget
      refine ⟨[], rest, by simp, by simp, ?_⟩
      intro q hq hq1
      exact hnd.1 (hq1 ▸ List.mem_map_of_mem (fun p => p.1) hq)
    · rw [if_neg h0] at hget
      obtain ⟨pre', post', heq, hpre', hpost'⟩ := ih k v hnd.2 hget
      exact ⟨(k0, v0) :: pre', post', by simp [heq], by
        intro q hq
        rcases List.mem_cons.mp hq with rfl | hq2
        · exact h0
        · exact hpre' q hq2, hpost'⟩

/-- Claim C6: after the reference-resolution pass completes, for every
block whose metadata has key `refs` and every listed column present in
the block's table, each cell holds the result of `resolveSpec`: a
string naming a table of the document has become a shared handle to
that table, and a string matching no table name is unchanged; the
block's columns are untouched. (Metadata keys are unique — it is a
Python dict.) -/
theorem c6_reference_resolution
    (tables tables' : Tables) (metadata : Metadata) (tbl : String)
    (md : List (String × MetaVal)) (r : MetaVal) (df0 df1 : DataFrame)
    (hnd : (dictKeys metadata).Nodup)
    (hok : resolveRefs metadata tables = .ok tables')
    (hmd : dictGet? metadata tbl = some md)
    (hr : dictGet? md "refs" = some r)
    (h0 : dictGet? tables tbl = some df0)
    (h1 : dictGet? tables' tbl = some df1) :
    df1.cols = df0.cols ∧
    ∀ col ∈ metaIter r, ∀ j, df0.cols.indexOf? col = some j →
      getCol df1 j = (getCol df0 j).map (resolveSpec tables) := by
  obtain ⟨pre, post, heq, hpre, hpost⟩ := dict_split metadata tbl md hnd hmd
  subst heq
  rw [resolveRefs_append] at hok
  cases hok1 : resolveRefs pre tables with
  | error e => rw [hok1] at hok; simp at hok
  | ok t1 =>
    rw [hok1] at hok
    simp only at hok
    have hk1 : dictKeys t1 = dictKeys tables := resolveRefs_keys pre tables t1 hok1
    have hget1 : dictGet? t1 tbl = some df0 := by
      rw [resolveRefs_untouched pre tables t1 tbl hpre hok1]
      exact h0
    simp only [resolveRefs, hr, Bind.bind, hget1, Except.bind] at hok
    cases hfold : List.foldlM (fun d c => applyRefCol t1 d c) df0 (metaIter r) with
    | error e => rw [hfold] at hok; simp [Except.bind] at hok
    | ok df2 =>
      rw [hfold] at hok
      simp only [Except.bind] at hok
      have hdf1 : df1 = df2 := by
        have hu := resolveRefs_untouched post (dictInsert t1 tbl df2) tables' tbl hpost hok
        rw [h1, dictGet?_insert, if_pos rfl] at hu
        injection hu with hu
      obtain ⟨hinv2, _, hall⟩ := foldRefCols t1 df0 (metaIter r) df0 df2
        ⟨rfl, rfl, fun j => Or.inl rfl⟩ hfold
      constructor
      · rw [hdf1]
        exact hinv2.1
      · intro col hcol j hj
        rw [hdf1, hall col hcol j hj]
        exact List.map_congr_left (fun v _ => resolveSpec_ext hk1 v)

/-- Block A of the resolution example: a plain one-column table. -/
def exRefA : DataFrame := ⟨["x"], [.int64], [[.int 1]]⟩

/-- Block B of the resolution example: its `a_id` column holds the
string `A` (a table name) and the string `Z` (no table name). -/
def exRefB : DataFrame :=
  ⟨["a_id", "val"], [.object, .object],
   [[.str "A", .str "foo"], [.str "Z", .str "bar"]]⟩

/-- Block B after resolution: `A` became a handle, `Z` stayed. -/
def exRefB2 : DataFrame :=
  ⟨["a_id", "val"], [.object, .object],
   [[.ref "A", .str "foo"], [.str "Z", .str "bar"]]⟩

def exRefTables : Tables := [("A", exRefA), ("B", exRefB)]

def exRefMeta : Metadata := [("A", []), ("B", [("refs", .list ["a_id"])])]

/-- Witness for `c6_reference_resolution` at the spec's scenario. -/
theorem c6_reference_resolution_witness :
    getCol exRefB2 0 = (getCol exRefB 0).map (resolveSpec exRefTables) :=
  (c6_reference_resolution exRefTables [("A", exRefA), ("B", exRefB2)] exRefMeta
    "B" [("refs", .list ["a_id"])] (.list ["a_id"]) exRefB exRefB2
    (by decide) (by rfl) (by rfl) (by rfl) (by rfl) (by rfl)).2
    "a_id" (by decide) 0 (by rfl)

/-! ## Line structure of the emitted text -/

/-- Join lines, terminating each with a newline. -/
def joinNL : List String → String
  | [] => ""
  | l :: ls => l ++ "\n" ++ joinNL ls

/-- Two strings with the same characters are equal. -/
theorem strExt {a b : String} (h : a.data = b.data) : a = b := by
  cases a
  cases b
  exact congrArg String.mk h

/-- One manifest row without its newline. -/
def manifestRowLine (startLs : List (String × Nat))
    (descriptions : List (String × String)) (name : String) : String :=
  let desc := (dictGet? descriptions name).getD ""
  let desc := if containsCh desc ',' then "\"" ++ desc ++ "\"" else desc
  name ++ "," ++ renderNat ((dictGet? startLs name).getD 0) ++ "," ++ desc

/-- A block's title line. -/
def headerLine (descriptions : List (String × String)) (name : String)
    (df : DataFrame) : String :=
  "#" ++ name ++ "\x7b" ++ blockMeta descriptions name df ++ "\x7d"

/-- A table's column-header line. -/
def colHeaderLine (df : DataFrame) : String := joinComma (df.cols.map csvQuoteStr)

/-- One data row as a CSV line. -/
def rowLine (r : List Value) : String :=
  joinComma (r.map (fun v => csvQuoteStr (renderCell v)))

/-- The lines of one emitted block: separating blank line, title line,
column-header line, data rows. -/
def blockLines (descriptions : List (String × String)) (name : String)
    (df : DataFrame) : List String :=
  "" :: headerLine descriptions name df :: colHeaderLine df :: df.rows.map rowLine

/-- All lines of the emitted text, in order. -/
def exportAllLines (tables : Tables) (descriptions : List (String × String)) :
    List String :=
  "#manifest" :: "table,start_line,description" ::
    (tables.map (fun p => manifestRowLine (startLines tables) descriptions p.1)
     ++ (tables.map (fun p => blockLines descriptions p.1 p.2)).flatten)

theorem joinNL_append (a b : List String) :
    joinNL (a ++ b) = joinNL a ++ joinNL b := by
  induction a with
  | nil =>
    apply strExt
    simp [joinNL, String.data_append]
  | cons l t ih =>
    simp only [List.cons_append, joinNL]
    simp only [List.append_eq] at ih ⊢
    rw [ih]
    simp [String.append_assoc]

theorem strConcat_joinNL (lss : List (List String)) :
    strConcat (lss.map joinNL) = joinNL lss.flatten := by
  induction lss with
  | nil => rfl
  | cons l t ih => rw [List.map_cons, List.flatten_cons, strConcat, ih, joinNL_append]

theorem strConcat_nl (ls : List String) :
    strConcat (ls.map (fun l => l ++ "\n")) = joinNL ls := by
  induction ls with
  | nil => rfl
  | cons l t ih =>
    simp only [List.map_cons, strConcat, joinNL]
    rw [ih, String.append_assoc]

theorem to_csv_eq (df : DataFrame) :
    to_csv df = joinNL (colHeaderLine df :: df.rows.map rowLine) := by
  have hmm : df.rows.map (fun r =>
      joinComma (r.map (fun v => csvQuoteStr (renderCell v))) ++ "\n") =
      (df.rows.map rowLine).map (fun l => l ++ "\n") := by
    rw [List.map_map]
    rfl
  rw [to_csv, hmm, strConcat_nl]
  rfl

theorem blockChunk_eq (descriptions : List (String × String)) (name : String)
    (df : DataFrame) :
    blockChunk descriptions name df = joinNL (blockLines descriptions name df) := by
  have h : joinNL (blockLines descriptions name df) =
      "" ++ "\n" ++ (headerLine descriptions name df ++ "\n" ++ to_csv df) := by
    rw [to_csv_eq]
    rfl
  rw [h]
  apply strExt
  simp only [blockChunk, headerLine, String.data_append, List.append_assoc]
  rfl

/-- The emitted text is exactly its lines, each newline-terminated. -/
theorem export_jcsv_eq_joinNL (tables : Tables)
    (descriptions : List (String × String)) :
    export_jcsv tables descriptions = joinNL (exportAllLines tables descriptions) := by
  have h1 : strConcat (tables.map (fun p => manifestRow (startLines tables) descriptions p.1)) =
      joinNL (tables.map (fun p => manifestRowLine (startLines tables) descriptions p.1)) := by
    have hmm : tables.map (fun p => manifestRow (startLines tables) descriptions p.1) =
        (tables.map (fun p => manifestRowLine (startLines tables) descriptions p.1)).map
          (fun l => l ++ "\n") := by
      rw [List.map_map]
      rfl
    rw [hmm, strConcat_nl]
  have h2 : strConcat (tables.map (fun p => blockChunk descriptions p.1 p.2)) =
      joinNL (tables.map (fun p => blockLines descriptions p.1 p.2)).flatten := by
    rw [← strConcat_joinNL]
    simp only [List.map_map]
    congr 1
    exact List.map_congr_left (fun p _ => blockChunk_eq descriptions p.1 p.2)
  simp only [export_jcsv, exportAllLines, joinNL, joinNL_append, h1, h2]
  apply strExt
  simp only [String.data_append, List.append_assoc]
  rfl

/-! ## From emitted text to lines -/

theorem splitNl_append (a : List Char) (ha : '\n' ∉ a) :
    ∀ rest, splitNl (a ++ '\n' :: rest) = a :: splitNl rest := by
  induction a with
  | nil =>
    intro rest
    simp [splitNl]
  | cons c t ih =>
    intro rest
    have hc : ¬(c = '\n') := fun h => ha (h ▸ List.mem_cons_self c t)
    have ht : '\n' ∉ t := fun h => ha (List.mem_cons_of_mem c h)
    simp only [List.cons_append, splitNl, List.append_eq, ih ht rest, if_neg hc]

theorem textLines_joinNL (ls : List String) (h : ∀ l ∈ ls, '\n' ∉ l.data) :
    textLines (joinNL ls) = ls ++ [""] := by
  induction ls with
  | nil => rfl
  | cons l t ih =>
    have hdata : (joinNL (l :: t)).data = l.data ++ '\n' :: (joinNL t).data := by
      simp only [joinNL, String.data_append, List.append_assoc]
      rfl
    simp only [textLines, hdata,
      splitNl_append l.data (h l (by simp)) (joinNL t).data, List.map_cons]
    have := ih (fun x hx => h x (by simp [hx]))
    simp only [textLines] at this
    rw [this]
    rfl

theorem noNl_append {a b : String} (ha : '\n' ∉ a.data) (hb : '\n' ∉ b.data) :
    '\n' ∉ (a ++ b).data := by
  rw [String.data_append]
  intro h
  rcases List.mem_append.mp h with h | h
  · exact ha h
  · exact hb h

theorem noNl_joinComma {ls : List String} (h : ∀ x ∈ ls, '\n' ∉ x.data) :
    '\n' ∉ (joinComma ls).data := by
  induction ls with
  | nil => simp [joinComma]
  | cons x t ih =>
    cases t with
    | nil => exact h x (by simp)
    | cons y tt =>
      rw [joinComma]
      · exact noNl_append (noNl_append (h x (by simp)) (by decide))
          (ih (fun z hz => h z (by simp [hz])))
      · simp

theorem noNl_foldrDouble {cs : List Char} (q e : Char) (hq : q ≠ '\n') (he : e ≠ '\n')
    (h : '\n' ∉ cs) :
    '\n' ∉ cs.foldr (fun c acc => if c = '"' then q :: e :: acc else c :: acc) [] := by
  induction cs with
  | nil => simp
  | cons c t ih =>
    have hc : c ≠ '\n' := fun hcc => h (hcc ▸ List.mem_cons_self c t)
    have ht := ih (fun hx => h (List.mem_cons_of_mem c hx))
    simp only [List.foldr_cons]
    split
    · intro hm
      rcases List.mem_cons.mp hm with hm | hm
      · exact hq hm.symm
      · rcases List.mem_cons.mp hm with hm | hm
        · exact he hm.symm
        · exact ht hm
    · intro hm
      rcases List.mem_cons.mp hm with hm | hm
      · exact hc hm.symm
      · exact ht hm

theorem noNl_doubleQuotes {s : String} (h : '\n' ∉ s.data) :
    '\n' ∉ (doubleQuotes s).data :=
  noNl_foldrDouble '"' '"' (by decide) (by decide) h

theorem noNl_escapeDq {s : String} (h : '\n' ∉ s.data) :
    '\n' ∉ (escapeDq s).data :=
  noNl_foldrDouble '\\' '"' (by decide) (by decide) h

theorem noNl_csvQuoteStr {s : String} (h : '\n' ∉ s.data) :
    '\n' ∉ (csvQuoteStr s).data := by
  unfold csvQuoteStr
  split
  · exact noNl_append (noNl_append (by decide) (noNl_doubleQuotes h)) (by decide)
  · exact h

theorem digit_ne_nl {c : Char} (h : c.isDigit = true) : c ≠ '\n' := by
  intro hc
  rw [hc] at h
  exact absurd h (by decide)

theorem natToRevF_digits : ∀ (fuel n : Nat), ∀ c ∈ natToRevF fuel n, c.isDigit = true := by
  intro fuel
  induction fuel with
  | zero => intro n c hc; simp [natToRevF] at hc
  | succ f ih =>
    intro n c hc
    rw [natToRevF] at hc
    by_cases hn : n < 10
    · rw [if_pos hn] at hc
      simp only [List.mem_singleton] at hc
      subst hc
      have : n < 10 := hn
      interval_cases n <;> decide
    · rw [if_neg hn] at hc
      rcases List.mem_cons.mp hc with hc | hc
      · subst hc
        have h10 : n % 10 < 10 := Nat.mod_lt n (by omega)
        interval_cases h : n % 10 <;> decide
      · exact ih (n / 10) c hc

theorem noNl_renderNat (n : Nat) : '\n' ∉ (renderNat n).data := by
  intro h
  simp only [renderNat, ofChars] at h
  exact digit_ne_nl
    (natToRevF_digits (n + 1) n '\n' (List.mem_reverse.mp h)) rfl

theorem noNl_renderInt (n : Int) : '\n' ∉ (renderInt n).data := by
  unfold renderInt
  split
  · intro h
    simp only [ofChars] at h
    rcases List.mem_cons.mp h with h | h
    · exact absurd h.symm (by decide)
    · exact digit_ne_nl
        (natToRevF_digits (n.natAbs + 1) n.natAbs '\n' (List.mem_reverse.mp h)) rfl
  · exact noNl_renderNat n.natAbs

theorem mem_zipWith {α β γ : Type} (f : α → β → γ) :
    ∀ (as : List α) (bs : List β) (x : γ), x ∈ List.zipWith f as bs →
    ∃ a ∈ as, ∃ b ∈ bs, x = f a b := by
  intro as
  induction as with
  | nil => intro bs x h; simp at h
  | cons a t ih =>
    intro bs x h
    cases bs with
    | nil => simp at h
    | cons b tb =>
      rw [List.zipWith_cons_cons] at h
      rcases List.mem_cons.mp h with h | h
      · exact ⟨a, by simp, b, by simp, h⟩
      · obtain ⟨a2, ha2, b2, hb2, hx⟩ := ih tb x h
        exact ⟨a2, by simp [ha2], b2, by simp [hb2], hx⟩

theorem noNl_dtypeTag (dt : Dtype) : '\n' ∉ (dtypeTag dt).data := by
  unfold dtypeTag
  split
  · decide
  · split
    · decide
    · decide

theorem noNl_blockMeta {descriptions : List (String × String)} {name : String}
    {df : DataFrame} (hcols : ∀ c ∈ df.cols, '\n' ∉ c.data)
    (hdescs : ∀ q ∈ descriptions, '\n' ∉ q.2.data) :
    '\n' ∉ (blockMeta descriptions name df).data := by
  have hspecs : '\n' ∉ (joinComma (List.zipWith
      (fun c dt => c ++ ":" ++ dtypeTag dt) df.cols df.dtypes)).data := by
    apply noNl_joinComma
    intro x hx
    obtain ⟨c, hc, dt, _, hxeq⟩ := mem_zipWith _ df.cols df.dtypes x hx
    subst hxeq
    exact noNl_append (noNl_append (hcols c hc) (by decide)) (noNl_dtypeTag dt)
  have hdescNl : ∀ s : String, dictGet? descriptions name = some s → '\n' ∉ s.data := by
    intro s hs
    induction descriptions with
    | nil => simp [dictGet?] at hs
    | cons q t ih =>
      simp only [dictGet?] at hs
      by_cases hq : q.1 = name
      · rw [if_pos hq] at hs
        injection hs with hs
        subst hs
        exact hdescs q (by simp)
      · rw [if_neg hq] at hs
        exact ih (fun z hz => hdescs z (by simp [hz])) hs
  have hmetaBase : '\n' ∉ ("dtypes=[" ++ joinComma (List.zipWith
      (fun c dt => c ++ ":" ++ dtypeTag dt) df.cols df.dtypes) ++ "]").data :=
    noNl_append (noNl_append (by decide) hspecs) (by decide)
  unfold blockMeta
  cases hg : dictGet? descriptions name with
  | none => exact hmetaBase
  | some comment =>
    simp only
    split
    · exact hmetaBase
    · have hcom := hdescNl comment hg
      refine noNl_append (noNl_append (noNl_append hmetaBase (by decide)) ?_) (by decide)
      split
      · exact noNl_escapeDq hcom
      · exact hcom

theorem noNl_headerLine {descriptions : List (String × String)} {name : String}
    {df : DataFrame} (hname : '\n' ∉ name.data)
    (hcols : ∀ c ∈ df.cols, '\n' ∉ c.data)
    (hdescs : ∀ q ∈ descriptions, '\n' ∉ q.2.data) :
    '\n' ∉ (headerLine descriptions name df).data :=
  noNl_append (noNl_append (noNl_append (noNl_append (by decide) hname) (by decide))
    (noNl_blockMeta hcols hdescs)) (by decide)

theorem noNl_colHeaderLine {df : DataFrame} (hcols : ∀ c ∈ df.cols, '\n' ∉ c.data) :
    '\n' ∉ (colHeaderLine df).data := by
  apply noNl_joinComma
  intro x hx
  obtain ⟨c, hc, hxeq⟩ := List.mem_map.mp hx
  subst hxeq
  exact noNl_csvQuoteStr (hcols c hc)

theorem noNl_rowLine {r : List Value}
    (hcells : ∀ v ∈ r, '\n' ∉ (renderCell v).data) :
    '\n' ∉ (rowLine r).data := by
  apply noNl_joinComma
  intro x hx
  obtain ⟨v, hv, hxeq⟩ := List.mem_map.mp hx
  subst hxeq
  exact noNl_csvQuoteStr (hcells v hv)

theorem noNl_manifestRowLine {startLs : List (String × Nat)}
    {descriptions : List (String × String)} {name : String}
    (hname : '\n' ∉ name.data)
    (hdescs : ∀ q ∈ descriptions, '\n' ∉ q.2.data) :
    '\n' ∉ (manifestRowLine startLs descriptions name).data := by
  have hdesc0 : '\n' ∉ ((dictGet? descriptions name).getD "").data := by
    cases hg : dictGet? descriptions name with
    | none => decide
    | some s =>
      simp only [Option.getD]
      induction descriptions with
      | nil => simp [dictGet?] at hg
      | cons q t ih =>
        simp only [dictGet?] at hg
        by_cases hq : q.1 = name
        · rw [if_pos hq] at hg
          injection hg with hg
          subst hg
          exact hdescs q (by simp)
        · rw [if_neg hq] at hg
          exact ih (fun z hz => hdescs z (by simp [hz])) hg
  unfold manifestRowLine
  simp only
  refine noNl_append (noNl_append (noNl_append (noNl_append hname (by decide))
    (noNl_renderNat _)) (by decide)) ?_
  split
  · exact noNl_append (noNl_append (by decide) hdesc0) (by decide)
  · exact hdesc0

/-! ## Start-line positions versus emitted line positions -/

/-- The cursor value assigned to the first table of a given name,
starting from cursor `c` (the loop of lines 22-27 of the writer). -/
def cursorOf : Tables → Nat → String → Nat
  | [], _, _ => 0
  | (n, df) :: rest, c, nm =>
    if n = nm then c else cursorOf rest (c + (2 + df.rows.length + 1)) nm

theorem dictKeys_cons {α : Type} (n : String) (v : α) (rest : List (String × α)) :
    dictKeys ((n, v) :: rest) = n :: dictKeys rest := rfl

theorem cursorOf_cons_eq (n : String) (df : DataFrame) (rest : Tables) (c : Nat) :
    cursorOf ((n, df) :: rest) c n = c := by
  rw [show cursorOf ((n, df) :: rest) c n =
    if n = n then c else cursorOf rest (c + (2 + df.rows.length + 1)) n from rfl,
    if_pos rfl]

theorem cursorOf_cons_ne {n nm : String} (hn : n ≠ nm) (df : DataFrame)
    (rest : Tables) (c : Nat) :
    cursorOf ((n, df) :: rest) c nm =
      cursorOf rest (c + (2 + df.rows.length + 1)) nm := by
  rw [show cursorOf ((n, df) :: rest) c nm =
    if n = nm then c else cursorOf rest (c + (2 + df.rows.length + 1)) nm from rfl,
    if_neg hn]

theorem cursorOf_ge : ∀ (ts : Tables) (c : Nat) (nm : String),
    nm ∈ dictKeys ts → c ≤ cursorOf ts c nm := by
  intro ts
  induction ts with
  | nil => intro c nm h; simp [dictKeys] at h
  | cons p rest ih =>
    intro c nm h
    obtain ⟨n, df⟩ := p
    unfold cursorOf
    by_cases hn : n = nm
    · rw [if_pos hn]
    · rw [if_neg hn]
      simp only [dictKeys, List.map_cons, List.mem_cons] at h
      rcases h with h | h
      · exact absurd h.symm hn
      · exact le_trans (by omega) (ih (c + (2 + df.rows.length + 1)) nm (by simpa [dictKeys] using h))

theorem startLinesGo_lookup : ∀ (ts : Tables) (acc : List (String × Nat)) (c : Nat)
    (nm : String), (dictKeys ts).Nodup →
    dictGet? (startLinesGo acc c ts) nm =
      if nm ∈ dictKeys ts then some (cursorOf ts c nm) else dictGet? acc nm := by
  intro ts
  induction ts with
  | nil =>
    intro acc c nm _
    simp [startLinesGo, dictKeys, cursorOf]
  | cons p rest ih =>
    intro acc c nm hnd
    obtain ⟨n, df⟩ := p
    simp only [dictKeys, List.map_cons, List.nodup_cons] at hnd
    rw [startLinesGo, ih (dictInsert acc n c) (c + (2 + df.rows.length + 1)) nm hnd.2]
    by_cases hn : n = nm
    · subst hn
      have hnr : ¬(n ∈ dictKeys rest) := hnd.1
      rw [if_neg hnr, dictGet?_insert, if_pos rfl,
        if_pos (show n ∈ dictKeys ((n, df) :: rest) from by
          rw [dictKeys_cons]; exact List.mem_cons_self n _),
        cursorOf_cons_eq]
    · by_cases hmem : nm ∈ dictKeys rest
      · rw [if_pos hmem,
          if_pos (show nm ∈ dictKeys ((n, df) :: rest) from by
            rw [dictKeys_cons]; exact List.mem_cons_of_mem n hmem),
          cursorOf_cons_ne hn]
      · rw [if_neg hmem, dictGet?_insert, if_neg hn,
          if_neg (show ¬ nm ∈ dictKeys ((n, df) :: rest) from by
            rw [dictKeys_cons]
            intro hc
            rcases List.mem_cons.mp hc with hc | hc
            · exact hn hc.symm
            · exact hmem hc)]

theorem blockLines_length (descriptions : List (String × String)) (name : String)
    (df : DataFrame) :
    (blockLines descriptions name df).length = 3 + df.rows.length := by
  simp [blockLines]
  omega

/-- In the concatenated block lines, the title line of table `nm` sits
exactly at the offset the cursor computation assigns. -/
theorem blocks_get? (descriptions : List (String × String)) :
    ∀ (ts : Tables) (c : Nat) (nm : String) (df : DataFrame),
    (dictKeys ts).Nodup → (nm, df) ∈ ts →
    ((ts.map (fun p => blockLines descriptions p.1 p.2)).flatten)[cursorOf ts c nm + 1 - c]?
      = some (headerLine descriptions nm df) := by
  intro ts
  induction ts with
  | nil => intro c nm df _ h; simp at h
  | cons p rest ih =>
    intro c nm df hnd hmem
    obtain ⟨n, df0⟩ := p
    rw [dictKeys_cons, List.nodup_cons] at hnd
    rcases List.mem_cons.mp hmem with heq | hmem2
    · injection heq with h1 h2
      subst h1
      subst h2
      rw [cursorOf_cons_eq, show c + 1 - c = 1 from by omega,
        List.map_cons, List.flatten_cons,
        List.getElem?_append_left (by rw [blockLines_length]; omega)]
      rfl
    · have hn : ¬(n = nm) := by
        intro h
        subst h
        exact hnd.1 (List.mem_map_of_mem (fun q => q.1) hmem2)
      rw [cursorOf_cons_ne hn]
      simp only [List.map_cons, List.flatten_cons]
      have hmono : c + (2 + df0.rows.length + 1) ≤
          cursorOf rest (c + (2 + df0.rows.length + 1)) nm :=
        cursorOf_ge rest _ nm (List.mem_map_of_mem (fun q => q.1) hmem2)
      rw [List.getElem?_append_right (by rw [blockLines_length]; omega)]
      rw [blockLines_length]
      have hidx : cursorOf rest (c + (2 + df0.rows.length + 1)) nm + 1 - c
          - (3 + df0.rows.length) =
          cursorOf rest (c + (2 + df0.rows.length + 1)) nm + 1
            - (c + (2 + df0.rows.length + 1)) := by omega
      rw [hidx]
      exact ih (c + (2 + df0.rows.length + 1)) nm df hnd.2 hmem2

/-- Every line of the emitted text is newline-free under the
no-newline hypotheses on names, columns, cells and descriptions. -/
theorem exportAllLines_noNl (tables : Tables)
    (descriptions : List (String × String))
    (hnames : ∀ p ∈ tables, '\n' ∉ p.1.data)
    (hcols : ∀ p ∈ tables, ∀ c ∈ p.2.cols, '\n' ∉ c.data)
    (hcells : ∀ p ∈ tables, ∀ r ∈ p.2.rows, ∀ v ∈ r, '\n' ∉ (renderCell v).data)
    (hdescs : ∀ q ∈ descriptions, '\n' ∉ q.2.data) :
    ∀ l ∈ exportAllLines tables descriptions, '\n' ∉ l.data := by
  intro l hl
  unfold exportAllLines at hl
  rcases List.mem_cons.mp hl with rfl | hl
  · decide
  rcases List.mem_cons.mp hl with rfl | hl
  · decide
  rcases List.mem_append.mp hl with hl | hl
  · obtain ⟨p, hp, hleq⟩ := List.mem_map.mp hl
    subst hleq
    exact noNl_manifestRowLine (hnames p hp) hdescs
  · obtain ⟨ls, hls, hlin⟩ := List.mem_flatten.mp hl
    obtain ⟨p, hp, hlseq⟩ := List.mem_map.mp hls
    subst hlseq
    unfold blockLines at hlin
    rcases List.mem_cons.mp hlin with rfl | hlin
    · decide
    rcases List.mem_cons.mp hlin with rfl | hlin
    · exact noNl_headerLine (hnames p hp) (hcols p hp) hdescs
    rcases List.mem_cons.mp hlin with rfl | hlin
    · exact noNl_colHeaderLine (hcols p hp)
    · obtain ⟨r, hr, hleq⟩ := List.mem_map.mp hlin
      subst hleq
      exact noNl_rowLine (fun v hv => hcells p hp r hr v hv)

/-- Claim C1, amended: for every non-empty table map whose table names,
column names, cell texts and descriptions contain no newline (and whose
cells are not already table handles), the `start_line` the writer
records for each table equals the 1-based line number, in the emitted
text, of that table's `#name\x7b...\x7d` title line. -/
theorem c1_manifest_offsets (tables : Tables)
    (descriptions : List (String × String))
    (hne : tables ≠ [])
    (hnd : (dictKeys tables).Nodup)
    (hnames : ∀ p ∈ tables, '\n' ∉ p.1.data)
    (hcols : ∀ p ∈ tables, ∀ c ∈ p.2.cols, '\n' ∉ c.data)
    (hcells : ∀ p ∈ tables, ∀ r ∈ p.2.rows, ∀ v ∈ r,
      isRefV v = false ∧ '\n' ∉ (renderCell v).data)
    (hdescs : ∀ q ∈ descriptions, '\n' ∉ q.2.data) :
    ∀ name df, (name, df) ∈ tables →
    dictGet? (startLines tables) name =
        some (cursorOf tables (manifestLineCount tables + 1) name) ∧
    lineAt (export_jcsv tables descriptions)
        (cursorOf tables (manifestLineCount tables + 1) name) =
      some (headerLine descriptions name df) := by
  intro name df hmem
  have hmemk : name ∈ dictKeys tables :=
    List.mem_map_of_mem (fun q => q.1) hmem
  have hlook : dictGet? (startLines tables) name =
      some (cursorOf tables (manifestLineCount tables + 1) name) := by
    rw [startLines, startLinesGo_lookup tables [] (manifestLineCount tables + 1)
      name hnd, if_pos hmemk]
  refine ⟨hlook, ?_⟩
  have hNl : ∀ l ∈ exportAllLines tables descriptions, '\n' ∉ l.data :=
    exportAllLines_noNl tables descriptions hnames hcols
      (fun p hp r hr v hv => (hcells p hp r hr v hv).2) hdescs
  rw [lineAt, export_jcsv_eq_joinNL, textLines_joinNL _ hNl]
  set cur := cursorOf tables (manifestLineCount tables + 1) name with hcur
  have hge : manifestLineCount tables + 1 ≤ cur := cursorOf_ge tables _ name hmemk
  have hmlc : manifestLineCount tables = tables.length + 3 := by
    simp only [manifestLineCount]
    omega
  have hblocks := blocks_get? descriptions tables (manifestLineCount tables + 1)
    name df hnd hmem
  rw [← hcur] at hblocks
  have hklt : (cur + 1 - (manifestLineCount tables + 1)) <
      ((tables.map (fun p => blockLines descriptions p.1 p.2)).flatten).length := by
    by_contra hn
    rw [List.getElem?_eq_none (by omega)] at hblocks
    cases hblocks
  have hlen2 : (tables.map
      (fun p => manifestRowLine (startLines tables) descriptions p.1)).length
      = tables.length := by simp
  unfold exportAllLines
  have hidx : cur - 1 =
      ((cur + 1 - (manifestLineCount tables + 1)) + tables.length) + 1 + 1 := by
    omega
  rw [hidx, List.cons_append, List.cons_append, List.getElem?_cons_succ,
    List.getElem?_cons_succ, List.append_assoc,
    List.getElem?_append_right (by rw [hlen2]; omega), hlen2,
    show (cur + 1 - (manifestLineCount tables + 1)) + tables.length - tables.length
      = cur + 1 - (manifestLineCount tables + 1) from by omega,
    List.getElem?_append_left hklt]
  exact hblocks

/-! ## Character-level facts about stripping, splitting and tokens -/

theorem dropWhile_eq_self_head {α : Type} {p : α → Bool} :
    ∀ {l : List α}, (∀ c, l.head? = some c → p c = false) → l.dropWhile p = l := by
  intro l h
  cases l with
  | nil => rfl
  | cons c t =>
    rw [List.dropWhile_cons, h c rfl]
    simp

theorem rdrop_eq_self {p : Char → Bool} {l : List Char}
    (h : ∀ c, l.getLast? = some c → p c = false) :
    (l.reverse.dropWhile p).reverse = l := by
  rw [dropWhile_eq_self_head, List.reverse_reverse]
  intro c hc
  exact h c (by rwa [← List.head?_reverse])

theorem pyStrip_eq_self {s : String}
    (h1 : ∀ c, s.data.head? = some c → isPyWs c = false)
    (h2 : ∀ c, s.data.getLast? = some c → isPyWs c = false) :
    pyStrip s = s := by
  unfold pyStrip
  rw [dropWhile_eq_self_head h1, rdrop_eq_self h2]
  apply strExt
  rfl

theorem pyStrip_eq_self_all {s : String}
    (h : ∀ c ∈ s.data, isPyWs c = false) : pyStrip s = s := by
  refine pyStrip_eq_self (fun c hc => h c ?_) (fun c hc => h c ?_)
  · exact List.mem_of_mem_head? hc
  · exact List.mem_of_mem_getLast? hc

theorem pySplitCh_nosep : ∀ (a : List Char) (sep : Char), sep ∉ a →
    pySplitCh sep a = [a] := by
  intro a
  induction a with
  | nil => intro sep _; rfl
  | cons c t ih =>
    intro sep ha
    have hc : ¬(c = sep) := fun h => ha (h ▸ List.mem_cons_self c t)
    have ht : sep ∉ t := fun h => ha (List.mem_cons_of_mem c h)
    rw [pySplitCh, ih sep ht]
    simp [hc]

end JCSV

namespace JCSV

/-- Witness for `c1_manifest_offsets` at a concrete table map. -/
theorem c1_manifest_offsets_witness :
    dictGet? (startLines [("t1", exT1)]) "t1" =
        some (cursorOf [("t1", exT1)] (manifestLineCount [("t1", exT1)] + 1) "t1") ∧
    lineAt (export_jcsv [("t1", exT1)] [])
        (cursorOf [("t1", exT1)] (manifestLineCount [("t1", exT1)] + 1) "t1") =
      some (headerLine [] "t1" exT1) :=
  c1_manifest_offsets [("t1", exT1)] [] (by decide) (by decide) (by decide)
    (by decide) (by decide) (by decide) "t1" exT1 (by decide)

end JCSV

namespace JCSV

/-! ## Well-formedness of a table map for the round trip -/

/-- A non-empty identifier: the table and column names the header
pattern and the manifest row format transport verbatim. -/
def identStrB (s : String) : Bool := !s.data.isEmpty && s.data.all identChar

theorem identChar_excl {c : Char} (h : identChar c = true) {x : Char}
    (hx : identChar x = false) : ¬(c = x) := by
  intro he
  subst he
  rw [h] at hx
  cases hx

theorem identChar_not_ws {c : Char} (h : identChar c = true) : isPyWs c = false := by
  by_contra hw
  simp only [Bool.not_eq_false] at hw
  unfold isPyWs at hw
  rcases Bool.or_eq_true_iff.mp hw with hw | hw
  rcases Bool.or_eq_true_iff.mp hw with hw | hw
  rcases Bool.or_eq_true_iff.mp hw with hw | hw
  rcases Bool.or_eq_true_iff.mp hw with hw | hw
  rcases Bool.or_eq_true_iff.mp hw with hw | hw
  all_goals
    simp only [decide_eq_true_eq] at hw
    subst hw
    exact absurd h (by decide)

theorem noWs_append {a b : String} (ha : ∀ c ∈ a.data, isPyWs c = false)
    (hb : ∀ c ∈ b.data, isPyWs c = false) :
    ∀ c ∈ (a ++ b).data, isPyWs c = false := by
  intro c hc
  rw [String.data_append] at hc
  rcases List.mem_append.mp hc with h | h
  · exact ha c h
  · exact hb c h

theorem noWs_ident {s : String} (h : identStrB s = true) :
    ∀ c ∈ s.data, isPyWs c = false := by
  intro c hc
  have hall := (Bool.and_eq_true _ _ ▸ h).2
  exact identChar_not_ws (List.all_eq_true.mp hall c hc)

theorem noWs_joinComma {ss : List String}
    (h : ∀ s ∈ ss, ∀ c ∈ s.data, isPyWs c = false) :
    ∀ c ∈ (joinComma ss).data, isPyWs c = false := by
  induction ss with
  | nil => intro c hc; simp [joinComma] at hc
  | cons x t ih =>
    cases t with
    | nil => exact h x (by simp)
    | cons y tt =>
      rw [show joinComma (x :: y :: tt) = x ++ "," ++ joinComma (y :: tt) from rfl]
      exact noWs_append (noWs_append (h x (by simp)) (by decide))
        (ih (fun s hs => h s (List.mem_cons_of_mem x hs)))

end JCSV

namespace JCSV

/-! ### Quoting is the identity on the emitted tokens -/

theorem csvQuoteStr_id {s : String} (h : csvNeedsQuote s = false) :
    csvQuoteStr s = s := by
  simp [csvQuoteStr, h]

theorem csvNeedsQuote_false {s : String}
    (h : ∀ c ∈ s.data, ¬(c = ',') ∧ ¬(c = '"') ∧ ¬(c = '\n') ∧ ¬(c = '\r')) :
    csvNeedsQuote s = false := by
  unfold csvNeedsQuote
  rw [List.any_eq_false]
  intro c hc
  obtain ⟨h1, h2, h3, h4⟩ := h c hc
  simp [h1, h2, h3, h4]

theorem csvNeedsQuote_ident {s : String} (h : identStrB s = true) :
    csvNeedsQuote s = false := by
  apply csvNeedsQuote_false
  intro c hc
  have hall := (Bool.and_eq_true _ _ ▸ h).2
  have hcid := List.all_eq_true.mp hall c hc
  exact ⟨identChar_excl hcid (by decide), identChar_excl hcid (by decide),
    identChar_excl hcid (by decide), identChar_excl hcid (by decide)⟩

theorem colHeaderLine_plain {df : DataFrame}
    (hcols : ∀ c ∈ df.cols, identStrB c = true) :
    colHeaderLine df = joinComma df.cols := by
  unfold colHeaderLine
  congr 1
  apply List.map_congr_left ?_ |>.trans (List.map_id df.cols)
  intro c hc
  exact csvQuoteStr_id (csvNeedsQuote_ident (hcols c hc))

theorem noWs_colHeaderLine_plain {df : DataFrame}
    (hcols : ∀ c ∈ df.cols, identStrB c = true) :
    ∀ c ∈ (colHeaderLine df).data, isPyWs c = false := by
  rw [colHeaderLine_plain hcols]
  exact noWs_joinComma (fun s hs => noWs_ident (hcols s hs))

theorem pyStrip_colHeaderLine {df : DataFrame}
    (hcols : ∀ c ∈ df.cols, identStrB c = true) :
    pyStrip (colHeaderLine df) = colHeaderLine df :=
  pyStrip_eq_self_all (noWs_colHeaderLine_plain hcols)

end JCSV

namespace JCSV

end JCSV

namespace JCSV

/-! ### The manifest rows of an emitted file -/

end JCSV

namespace JCSV

end JCSV

namespace JCSV

/-! ### Facts about transportable cell tokens -/

end JCSV

namespace JCSV

/-! ### CSV splitting inverts comma-joining of unquoted tokens -/

end JCSV

namespace JCSV

/-! ### Dtype inference and cell parsing invert cell rendering -/

end JCSV

namespace JCSV

/-! ### Positional helpers -/

end JCSV

namespace JCSV

end JCSV

namespace JCSV

end JCSV

namespace JCSV

/-! ### Top-level comma splitting of the emitted metadata -/

end JCSV

namespace JCSV

end JCSV

namespace JCSV

end JCSV

namespace JCSV

/-! ### `astype` on an emitted block is value-preserving -/

end JCSV

namespace JCSV

end JCSV

namespace JCSV

/-! ### Scanner step equations and line facts -/

end JCSV

namespace JCSV

end JCSV

namespace JCSV

end JCSV

namespace JCSV

end JCSV

namespace JCSV

end JCSV

namespace JCSV

end JCSV
